import Mathlib

/-!
Verification development for the lifeomic/app-tools client-side
authentication library.

The development shallowly embeds the two session controllers of the
repository:

* `LOAuth` (src/LOAuth.ts): the redirect-based OAuth2 controller.  Its
  mutable instance fields (in-memory token, persisted token record, the
  interval handle) together with the browser environment it touches
  (location, history, storage, fetch, timers) are collected in one state
  record `LO.St`, and the methods become state transformers.  The two
  external effect sources, the OAuth collaborator code exchange
  (client.code.getToken) and window.fetch, are modelled as oracles: lists
  of prescribed outcomes consumed call by call, where the entry none means
  the call rejected.  The recursion of refreshAccessToken is expressed
  with an explicit fuel counter equal to the allowed invocation depth; the
  real recursion depth is bounded by 3 on every path, so every theorem
  holds for all sufficiently large fuel.

* `APIBasedAuth` (src/APIBasedAuth.ts): the direct API controller, whose
  session cache and key/value store are the state `API.St`, and whose
  HTTP calls are parameters carrying the provider response of that call.

The application-state codec used by LOAuth (JSON.stringify / JSON.parse
restricted to the flat string-to-string objects the controller produces,
and the Latin-1 base64 functions btoa / atob) is implemented concretely so
that the round-trip claims are decidable statements.
-/

namespace AppTools

/-! ### Base64 (window.btoa / window.atob)

btoa operates on the UTF-16 code units of its argument and throws when a
unit exceeds 255; this is modelled by returning none in that case.  atob
accepts a correctly padded base64 string and returns none otherwise. -/

def b64Alphabet : List Char :=
  [ 'A', 'B', 'C', 'D', 'E', 'F', 'G', 'H', 'I', 'J', 'K', 'L', 'M',
    'N', 'O', 'P', 'Q', 'R', 'S', 'T', 'U', 'V', 'W', 'X', 'Y', 'Z',
    'a', 'b', 'c', 'd', 'e', 'f', 'g', 'h', 'i', 'j', 'k', 'l', 'm',
    'n', 'o', 'p', 'q', 'r', 's', 't', 'u', 'v', 'w', 'x', 'y', 'z',
    '0', '1', '2', '3', '4', '5', '6', '7', '8', '9', '+', '/' ]

def b64Char (n : Nat) : Char :=
  b64Alphabet.getD n '='

def b64IndexAux : List Char → Nat → Char → Option Nat
  | [], _, _ => none
  | a :: rest, i, c => if a = c then some i else b64IndexAux rest (i + 1) c

def b64Index (c : Char) : Option Nat :=
  b64IndexAux b64Alphabet 0 c

def b64EncodeBytes : List Nat → List Char
  | [] => []
  | [b1] =>
    [b64Char (b1 / 4), b64Char (b1 % 4 * 16), '=', '=']
  | [b1, b2] =>
    [b64Char (b1 / 4), b64Char (b1 % 4 * 16 + b2 / 16), b64Char (b2 % 16 * 4), '=']
  | b1 :: b2 :: b3 :: rest =>
    b64Char (b1 / 4) :: b64Char (b1 % 4 * 16 + b2 / 16) ::
      b64Char (b2 % 16 * 4 + b3 / 64) :: b64Char (b3 % 64) :: b64EncodeBytes rest

def b64DecodeBytes : List Char → Option (List Nat)
  | [] => some []
  | c1 :: c2 :: c3 :: c4 :: rest =>
    if c3 = '=' ∧ c4 = '=' ∧ rest = [] then do
      let n1 ← b64Index c1
      let n2 ← b64Index c2
      some [n1 * 4 + n2 / 16]
    else if c4 = '=' ∧ rest = [] then do
      let n1 ← b64Index c1
      let n2 ← b64Index c2
      let n3 ← b64Index c3
      some [n1 * 4 + n2 / 16, n2 % 16 * 16 + n3 / 4]
    else do
      let n1 ← b64Index c1
      let n2 ← b64Index c2
      let n3 ← b64Index c3
      let n4 ← b64Index c4
      let bs ← b64DecodeBytes rest
      some ((n1 * 4 + n2 / 16) :: (n2 % 16 * 16 + n3 / 4) :: (n3 % 4 * 64 + n4) :: bs)
  | _ => none

def btoa (s : String) : Option String :=
  if s.data.all (fun c => c.toNat < 256) then
    some (String.mk (b64EncodeBytes (s.data.map Char.toNat)))
  else none

def atob (s : String) : Option String :=
  (b64DecodeBytes s.data).map (fun bs => String.mk (bs.map Char.ofNat))

/-! ### JSON for flat string records

The application state handled by LOAuth is a plain JS object whose keys
and values are strings.  JSON.stringify on such an object produces
braces around comma-separated quoted pairs, escaping the quote, the
backslash, and the control characters exactly as below.  The parser
accepts the sub-grammar that the serializer emits (which is all the
decoding claim needs; any other input makes JSON.parse in the model fail
like a thrown SyntaxError, handled by the caller). -/

def hexDigitChar (n : Nat) : Char :=
  if n < 10 then Char.ofNat (48 + n) else Char.ofNat (87 + n)

def hexDigitVal (c : Char) : Option Nat :=
  if 48 ≤ c.toNat ∧ c.toNat ≤ 57 then some (c.toNat - 48)
  else if 97 ≤ c.toNat ∧ c.toNat ≤ 102 then some (c.toNat - 87)
  else if 65 ≤ c.toNat ∧ c.toNat ≤ 70 then some (c.toNat - 55)
  else none

def jsonEscapeChar (c : Char) : List Char :=
  if c = '"' then ['\\', '"']
  else if c = '\\' then ['\\', '\\']
  else if c = Char.ofNat 8 then ['\\', 'b']
  else if c = Char.ofNat 9 then ['\\', 't']
  else if c = Char.ofNat 10 then ['\\', 'n']
  else if c = Char.ofNat 12 then ['\\', 'f']
  else if c = Char.ofNat 13 then ['\\', 'r']
  else if c.toNat < 32 then
    ['\\', 'u', '0', '0', hexDigitChar (c.toNat / 16), hexDigitChar (c.toNat % 16)]
  else [c]

def jsonEscape : List Char → List Char
  | [] => []
  | c :: cs => jsonEscapeChar c ++ jsonEscape cs

def jsonStrLit (s : String) : List Char :=
  '"' :: (jsonEscape s.data ++ ['"'])

def jsonObjBody : List (String × String) → List Char
  | [] => []
  | [(k, v)] => jsonStrLit k ++ (':' :: jsonStrLit v)
  | (k, v) :: rest => jsonStrLit k ++ (':' :: jsonStrLit v) ++ (',' :: jsonObjBody rest)

def jsonStringifyObj (l : List (String × String)) : String :=
  String.mk ('{' :: (jsonObjBody l ++ ['}']))

def escCode (e : Char) : Option Char :=
  if e = '"' then some '"'
  else if e = '\\' then some '\\'
  else if e = '/' then some '/'
  else if e = 'b' then some (Char.ofNat 8)
  else if e = 't' then some (Char.ofNat 9)
  else if e = 'n' then some (Char.ofNat 10)
  else if e = 'f' then some (Char.ofNat 12)
  else if e = 'r' then some (Char.ofNat 13)
  else none

def readEscChar : List Char → Option (Char × List Char)
  | [] => none
  | e :: rest1 =>
    match escCode e with
    | some d => some (d, rest1)
    | none =>
      if e = 'u' then
        match rest1 with
        | h1 :: h2 :: h3 :: h4 :: rest2 => do
          let v1 ← hexDigitVal h1
          let v2 ← hexDigitVal h2
          let v3 ← hexDigitVal h3
          let v4 ← hexDigitVal h4
          some (Char.ofNat (((v1 * 16 + v2) * 16 + v3) * 16 + v4), rest2)
        | _ => none
      else none

def parseStrBodyF : Nat → List Char → Option (List Char × List Char)
  | 0, _ => none
  | fuel + 1, cs =>
    match cs with
    | [] => none
    | c :: rest =>
      if c = '"' then some ([], rest)
      else if c = '\\' then
        (readEscChar rest).bind (fun dr =>
          (parseStrBodyF fuel dr.2).map (fun p => (dr.1 :: p.1, p.2)))
      else (parseStrBodyF fuel rest).map (fun p => (c :: p.1, p.2))

def parseJsonPair (fuel : Nat) (cs : List Char) : Option ((String × String) × List Char) :=
  match cs with
  | '"' :: rest =>
    match parseStrBodyF fuel rest with
    | some (k, ':' :: '"' :: rest2) =>
      match parseStrBodyF fuel rest2 with
      | some (v, rest3) => some ((String.mk k, String.mk v), rest3)
      | none => none
    | _ => none
  | _ => none

def parseJsonPairs (strFuel : Nat) : Nat → List Char → Option (List (String × String) × List Char)
  | 0, _ => none
  | fuel + 1, cs =>
    match parseJsonPair strFuel cs with
    | some (p, '}' :: rest) => some ([p], rest)
    | some (p, ',' :: rest) =>
      match parseJsonPairs strFuel fuel rest with
      | some (ps, rest2) => some (p :: ps, rest2)
      | none => none
    | _ => none

def jsonParseObj (s : String) : Option (List (String × String)) :=
  match s.data with
  | ['{', '}'] => some []
  | '{' :: cs =>
    match parseJsonPairs (cs.length + 1) (cs.length + 1) cs with
    | some (ps, []) => some ps
    | _ => none
  | _ => none

/-! ### Application-State codec (src/LOAuth.ts)

A JS object with string keys and values is modelled as an association
list in insertion order; property assignment is setKey (update in place,
else append), and Object.assign folds setKey over the source, which is
exactly the JS insertion-order semantics the spec relies on.  A
URLSearchParams query is modelled as the already-URL-decoded list of
(name, value) pairs in order; get returns the first value.  JS
truthiness of get(name) is: present and non-empty. -/

def LO_QUERY_STRING_PARAMS : List String :=
  ["account", "projectId", "cohortId"]

def lookupParam (search : List (String × String)) (k : String) : Option String :=
  (search.find? (fun p => p.1 == k)).map (fun p => p.2)

def setKey : List (String × String) → String → String → List (String × String)
  | [], k, v => [(k, v)]
  | (k1, v1) :: rest, k, v =>
    if k1 = k then (k1, v) :: rest else (k1, v1) :: setKey rest k v

def objAssign (target source : List (String × String)) : List (String × String) :=
  source.foldl (fun acc p => setKey acc p.1 p.2) target

/-- The try block of LOAuth._decodeAppState: start from an empty object,
copy each whitelisted query parameter that is truthy, add the pathname
when it is neither empty nor the root, then merge the JSON decoded from
the base64 state parameter when one is present; a decoding failure is
caught and leaves the mutations made before the throw. -/
def decodeAppState (search : List (String × String)) (pathname : String) :
    List (String × String) :=
  let st1 := LO_QUERY_STRING_PARAMS.foldl (fun acc param =>
    match lookupParam search param with
    | some v => if v ≠ "" then setKey acc param v else acc
    | none => acc) []
  let st2 := if pathname ≠ "" ∧ pathname ≠ "/" then setKey st1 "pathname" pathname
    else st1
  match lookupParam search "state" with
  | some qs =>
    if qs ≠ "" then
      match (atob qs).bind jsonParseObj with
      | some parsed => objAssign st2 parsed
      | none => st2
    else st2
  | none => st2

/-- LOAuth._getStateForClientOAuth: decode the app state from the current
location, spread the ctor appState option over it, return undefined
(inner none) for an empty result and btoa of the JSON otherwise.  The
outer none models the btoa DOMException on a character above 255, which
this method does not catch. -/
def getStateForClientOAuth (search : List (String × String)) (pathname : String)
    (ctorAppState : List (String × String)) : Option (Option String) :=
  let state := objAssign (decodeAppState search pathname) ctorAppState
  if state = [] then some none
  else (btoa (jsonStringifyObj state)).map some

def keysOf (l : List (String × String)) : List String :=
  l.map (fun p => p.1)

def latin1Str (s : String) : Prop :=
  ∀ c ∈ s.data, c.toNat < 256

def latin1Obj (l : List (String × String)) : Prop :=
  ∀ p ∈ l, latin1Str p.1 ∧ latin1Str p.2

/-! ### URL encoding helpers

formEncode models URLSearchParams.toString (space becomes a plus, bytes
outside the safe set become uppercase percent escapes); strictEncode
models the strict encodeURIComponent flavour used by the query-string
package, which also sorts keys.  Characters above 255 would be UTF-8
expanded by the platform; the model keeps the low byte, which is
irrelevant to every claim (all inspected strings are ASCII). -/

def hexUpper (n : Nat) : Char :=
  if n < 10 then Char.ofNat (48 + n) else Char.ofNat (55 + n)

def isFormSafe (c : Char) : Bool :=
  (48 ≤ c.toNat ∧ c.toNat ≤ 57) ∨ (65 ≤ c.toNat ∧ c.toNat ≤ 90) ∨
    (97 ≤ c.toNat ∧ c.toNat ≤ 122) ∨ c = '*' ∨ c = '-' ∨ c = '.' ∨ c = '_'

def formEncodeChar (c : Char) : List Char :=
  if isFormSafe c then [c]
  else if c = ' ' then ['+']
  else ['%', hexUpper (c.toNat / 16 % 16), hexUpper (c.toNat % 16)]

def formEncode (s : String) : String :=
  String.mk (s.data.foldr (fun c acc => formEncodeChar c ++ acc) [])

def formUrlEncodePairs (l : List (String × String)) : String :=
  String.intercalate "&" (l.map (fun p => formEncode p.1 ++ "=" ++ formEncode p.2))

def isUriUnreserved (c : Char) : Bool :=
  (48 ≤ c.toNat ∧ c.toNat ≤ 57) ∨ (65 ≤ c.toNat ∧ c.toNat ≤ 90) ∨
    (97 ≤ c.toNat ∧ c.toNat ≤ 122) ∨ c = '-' ∨ c = '.' ∨ c = '_' ∨ c = '~'

def strictEncodeChar (c : Char) : List Char :=
  if isUriUnreserved c then [c]
  else ['%', hexUpper (c.toNat / 16 % 16), hexUpper (c.toNat % 16)]

def strictEncode (s : String) : String :=
  String.mk (s.data.foldr (fun c acc => strictEncodeChar c ++ acc) [])

def strLeChars : List Char → List Char → Bool
  | [], _ => true
  | _ :: _, [] => false
  | a :: as, b :: bs =>
    if a.toNat < b.toNat then true
    else if b.toNat < a.toNat then false
    else strLeChars as bs

/-- Lexicographic order on UTF-16 code units, the default JS sort order
on strings (query-string sorts the keys with it). -/
def strLe (a b : String) : Bool := strLeChars a.data b.data

def insertSortedPair (p : String × String) :
    List (String × String) → List (String × String)
  | [] => [p]
  | q :: rest => if strLe p.1 q.1 then p :: q :: rest else q :: insertSortedPair p rest

def sortByKey (l : List (String × String)) : List (String × String) :=
  l.foldr insertSortedPair []

/-- queryString.stringify: keys sorted, strict percent encoding, joined
with equals and ampersand. -/
def queryStringStringify (pairs : List (String × String)) : String :=
  String.intercalate "&"
    ((sortByKey pairs).map (fun p => strictEncode p.1 ++ "=" ++ strictEncode p.2))

/-! ### LOAuth (src/LOAuth.ts)

The controller state bundles the instance fields (token, appState,
refreshInterval) with the pieces of the browser environment the class
touches.  The code exchange and the refresh fetch are driven by oracles:
lists of outcomes consumed one call at a time; the entry none models a
rejected promise.  For timers, setInterval yields fresh positive handles
(nextHandle); clearInterval removes a handle from activeTimers; the
timers list is the log of every interval ever installed. -/

def AUTH_TOKEN_INTERVAL : Int := 30 * 1000

def AUTH_REFRESH_WINDOW : Int := 5

def AUTH_STORAGE_KEY : String := "lo-app-tools-auth"

structure RawTokenData where
  access_token : String
  expires_in : Option Int
  id_token : Option String
  refresh_token : String
  token_type : Option String
deriving DecidableEq

/-- The persisted record: the raw token fields spread together with the
absolute expires instant (LOAuth._storeTokenData). -/
structure TokenData where
  raw : RawTokenData
  expires : Int
deriving DecidableEq

/-- The in-memory ClientOAuth2-style token: accessToken, refreshToken,
the raw data it was created from, and the absolute expiry in ms. -/
structure Token where
  accessToken : String
  refreshToken : String
  data : RawTokenData
  expires : Int
deriving DecidableEq

/-- The JSON body of a refresh-token response. -/
structure RespJson where
  access_token : String
  expires_in : Int
  id_token : Option String
  refresh_token : Option String
  token_type : Option String
deriving DecidableEq

structure FetchResp where
  ok : Bool
  json : Option RespJson
deriving DecidableEq

/-- The observable content of the refresh-token request issued by
refreshAccessToken (fetch target and form body fields). -/
structure RefreshRequest where
  uri : String
  method : String
  contentType : String
  client_id : String
  grant_type : String
  refresh_token : String
  redirect_uri : String
deriving DecidableEq

structure Config where
  clientId : String
  authorizationUri : String
  accessTokenUri : String
  redirectUri : String
  logoutUri : String
  logoutRedirectUri : String
  scopes : List String
  authUri : String
deriving DecidableEq

structure RefreshOptions where
  expiringRefresh : Bool := false
  refreshWindow : Option Int := none
  interval : Option Int := none
deriving DecidableEq

structure Loc where
  protocol : String
  hostname : String
  port : String
  pathname : String
  search : List (String × String)
  href : String
deriving DecidableEq

/-- Hand-off cookie content, from the spec: access_token, refresh_token,
expires, clientId, cookieDomain serialized as JSON under the auth key. -/
structure CookieData where
  access_token : String
  refresh_token : String
  expires : Int
  clientId : String
  cookieDomain : String
deriving DecidableEq

structure St where
  token : Option Token
  storage : Option TokenData
  appState : List (String × String)
  loc : Loc
  redirectLog : List String
  histLog : List String
  now : Int
  exchangeOracle : List (Option Token)
  fetchOracle : List (Option FetchResp)
  fetchLog : List RefreshRequest
  removeLog : Nat
  refreshInterval : Option Nat
  timers : List Nat
  activeTimers : List Nat
  nextHandle : Nat
  cookie : Option CookieData
  cookieWrites : List String
deriving DecidableEq

def popOracle {α : Type} : List (Option α) → Option α × List (Option α)
  | [] => (none, [])
  | o :: rest => (o, rest)

/-- LOAuth._storeTokenData: spread of token.data with the absolute
expires instant taken from token.expires. -/
def storeTokenData (t : Token) : TokenData :=
  { raw := t.data, expires := t.expires }

/-- The catch path of refreshAccessToken creates a token from the stored
record with client.createToken and resets its expiry to the stored
instant with expiresIn. -/
def createTokenFromStorage (d : TokenData) : Token :=
  { accessToken := d.raw.access_token, refreshToken := d.raw.refresh_token,
    data := d.raw, expires := d.expires }

/-- client.createToken over Object.assign of the held refresh token under
the response JSON: a refresh_token in the response wins, and the new
expiry is now plus expires_in seconds. -/
def createTokenFromRefresh (old : Token) (j : RespJson) (now : Int) : Token :=
  let rt := j.refresh_token.getD old.refreshToken
  { accessToken := j.access_token, refreshToken := rt,
    data := { access_token := j.access_token, expires_in := some j.expires_in,
              id_token := j.id_token, refresh_token := rt,
              token_type := j.token_type },
    expires := now + j.expires_in * 1000 }

/-- LOAuth._isTokenExpiring: floor of the minutes to expiry is at most
the refresh window (default 5).  Math.floor over division by the
positive constant 60000 is Euclidean division on Int. -/
def isTokenExpiring (opts : RefreshOptions) (t : Token) (now : Int) : Bool :=
  (t.expires - now) / 60000 ≤ opts.refreshWindow.getD AUTH_REFRESH_WINDOW

def mkRefreshRequest (cfg : Config) (t : Token) : RefreshRequest :=
  { uri := cfg.accessTokenUri, method := "POST",
    contentType := "application/x-www-form-urlencoded",
    client_id := cfg.clientId, grant_type := "refresh_token",
    refresh_token := t.refreshToken, redirect_uri := cfg.redirectUri }

def getProp (l : List (String × String)) (k : String) : Option String :=
  (l.find? (fun p => p.1 == k)).map (fun p => p.2)

/-- LOAuth._getAppUri with the appState already decoded: origin, the
stored pathname when truthy, and the whitelisted parameters as a query
string. -/
def appUri (loc : Loc) (app : List (String × String)) : String :=
  let qp := LO_QUERY_STRING_PARAMS.foldl (fun acc param =>
    match getProp app param with
    | some v => if v ≠ "" then setKey acc param v else acc
    | none => acc) []
  let qs0 := formUrlEncodePairs qp
  let qs := if qs0 ≠ "" then "?" ++ qs0 else ""
  let pathname := match getProp app "pathname" with
    | some v => v
    | none => ""
  loc.protocol ++ "//" ++ loc.hostname ++
    (if loc.port ≠ "" then ":" ++ loc.port else "") ++ pathname ++ qs

/-- Outcome of the catch handler of refreshAccessToken: either a final
state, or a request to re-enter refreshAccessToken with fresh options. -/
inductive CatchOut
  | done (s : St)
  | retry (opts : RefreshOptions) (s : St)

/-- The catch handler: reconstitute from storage when possible, adopt if
not expiring, otherwise drop the stored record and retry with
expiringRefresh; with no stored record, redirect to the authorization
URI (client.code.getUri). -/
def catchStep (cfg : Config) (opts : RefreshOptions) (s : St) : CatchOut :=
  match s.storage with
  | some d =>
    let tok := createTokenFromStorage d
    let s1 := { s with token := some tok }
    if isTokenExpiring opts tok s1.now then
      CatchOut.retry { expiringRefresh := true }
        { s1 with storage := none, removeLog := s1.removeLog + 1 }
    else CatchOut.done s1
  | none =>
    CatchOut.done { s with redirectLog := s.redirectLog ++ [cfg.authUri] }

/-- The no-token success path: store the exchanged token, then decode the
app state and rewrite the history entry to the app URI. -/
def exchangeSuccess (s : St) (t : Token) (rest : List (Option Token)) : St :=
  let s1 := { s with exchangeOracle := rest, token := some t,
                     storage := some (storeTokenData t) }
  let app := decodeAppState s1.loc.search s1.loc.pathname
  { s1 with appState := app, histLog := s1.histLog ++ [appUri s1.loc app] }

/-- LOAuth.refreshAccessToken as a state transformer.  fuel bounds the
invocation depth of the recursive self calls (the real depth is at most
three); at fuel zero the state is returned unchanged, and every theorem
supplies enough fuel for the paths it covers.  Option merging with the
ctor options only affects fields the ctor options do not carry
(expiringRefresh, refreshWindow), so it is omitted. -/
def refreshAccessToken (cfg : Config) : Nat → RefreshOptions → St → St
  | 0, _, s => s
  | fuel + 1, opts, s =>
    match s.token with
    | none =>
      match popOracle s.exchangeOracle with
      | (some t, rest) => exchangeSuccess s t rest
      | (none, rest) =>
        match catchStep cfg opts { s with exchangeOracle := rest } with
        | CatchOut.done s2 => s2
        | CatchOut.retry o2 s2 => refreshAccessToken cfg fuel o2 s2
    | some t =>
      if opts.expiringRefresh then
        match popOracle s.fetchOracle with
        | (some resp, rest) =>
          if resp.ok then
            match resp.json with
            | some j =>
              { s with fetchLog := s.fetchLog ++ [mkRefreshRequest cfg t],
                       fetchOracle := rest,
                       token := some (createTokenFromRefresh t j s.now),
                       storage := some (storeTokenData (createTokenFromRefresh t j s.now)) }
            | none =>
              match catchStep cfg opts
                  { s with fetchLog := s.fetchLog ++ [mkRefreshRequest cfg t],
                           fetchOracle := rest } with
              | CatchOut.done s3 => s3
              | CatchOut.retry o3 s3 => refreshAccessToken cfg fuel o3 s3
          else
            refreshAccessToken cfg fuel opts
              { s with fetchLog := s.fetchLog ++ [mkRefreshRequest cfg t],
                       fetchOracle := rest, token := none, storage := none,
                       removeLog := s.removeLog + 1 }
        | (none, rest) =>
          match catchStep cfg opts
              { s with fetchLog := s.fetchLog ++ [mkRefreshRequest cfg t],
                       fetchOracle := rest } with
          | CatchOut.done s3 => s3
          | CatchOut.retry o3 s3 => refreshAccessToken cfg fuel o3 s3
      else s

/-- LOAuth.startAutomaticTokenRefresh: run an initial acquire when no
token is held, then install the interval only when no handle was ever
stored.  Handles are positive, matching browser setInterval, so the
falsy test on the stored handle is the none test. -/
def startAutomaticTokenRefresh (cfg : Config) (fuel : Nat) (opts : RefreshOptions)
    (s : St) : St :=
  let s1 := if s.token = none then refreshAccessToken cfg fuel opts s else s
  match s1.refreshInterval with
  | none =>
    { s1 with refreshInterval := some s1.nextHandle,
              timers := s1.timers ++ [s1.nextHandle],
              activeTimers := s1.activeTimers ++ [s1.nextHandle],
              nextHandle := s1.nextHandle + 1 }
  | some _ => s1

/-- LOAuth.stopAutomaticTokenRefresh: clearInterval on the stored handle;
the handle field itself is never cleared. -/
def stopAutomaticTokenRefresh (s : St) : St :=
  match s.refreshInterval with
  | some h => { s with activeTimers := s.activeTimers.filter (fun x => x ≠ h) }
  | none => s

def logoutQs (cfg : Config) : String :=
  queryStringStringify
    [("client_id", cfg.clientId), ("logout_uri", cfg.logoutRedirectUri)]

/-- LOAuth.logout of the snapshot source: stop the schedule, drop the
stored record, and navigate to logoutUri with a question mark always
inserted before the query string. -/
def logout (cfg : Config) (s : St) : St :=
  let s1 := stopAutomaticTokenRefresh s
  let s2 := { s1 with storage := none, removeLog := s1.removeLog + 1 }
  { s2 with redirectLog := s2.redirectLog ++ [cfg.logoutUri ++ "?" ++ logoutQs cfg] }

def getAccessToken (s : St) : Option String :=
  s.token.map (fun t => t.accessToken)

/-- Modelled from the spec: the hand-off cookie deletion write of the
newest LOAuth (the implementation with _getDomainCookieAuthState is not
in the snapshot; its test file unnamed/part_004 is).  The cookie is
cleared by writing the auth key with an empty value, the cookie domain,
and a negative Max-Age. -/
def deleteCookieString (domain : String) : String :=
  AUTH_STORAGE_KEY ++ "=;domain=." ++ domain ++ ";Max-Age=-9999;path=/;secure"

/-- Modelled from the spec: adopting the hand-off cookie creates a token
from its access_token and refresh_token with the absolute expires
instant of the cookie. -/
def tokenFromCookie (c : CookieData) : Token :=
  { accessToken := c.access_token, refreshToken := c.refresh_token,
    data := { access_token := c.access_token, expires_in := none,
              id_token := none, refresh_token := c.refresh_token,
              token_type := none },
    expires := c.expires }

def storedFromCookie (c : CookieData) : TokenData :=
  { raw := (tokenFromCookie c).data, expires := c.expires }

/-- Modelled from the spec: refreshAccessToken of the newest LOAuth (not
in the snapshot; only its test file is) first consults the hand-off
cookie when no token is held: a present, parseable cookie is adopted as
the Token Record, persisted to the configured store, and the cookie is
deleted immediately by one write; in every other case the method behaves
as the snapshot refreshAccessToken. -/
def refreshAccessTokenWithCookieHandoff (cfg : Config) (fuel : Nat)
    (opts : RefreshOptions) (s : St) : St :=
  match s.token with
  | none =>
    match s.cookie with
    | some c =>
      { s with token := some (tokenFromCookie c),
               storage := some (storedFromCookie c),
               cookie := none,
               cookieWrites := s.cookieWrites ++ [deleteCookieString c.cookieDomain] }
    | none => refreshAccessToken cfg fuel opts s
  | some _ => refreshAccessToken cfg fuel opts s

def strContains (s : String) (c : Char) : Bool :=
  s.data.contains c

/-- Modelled from the spec: the logout navigation target of the newest
LOAuth (not in the snapshot; its test in unnamed/part_004 exercises a
logoutUri that already carries a query).  client_id and logout_uri are
merged into the configured logout URI: appended with an ampersand when
the URI already has a query string, otherwise attached with a question
mark. -/
def logoutNavigationTarget (cfg : Config) : String :=
  if strContains cfg.logoutUri '?' then cfg.logoutUri ++ "&" ++ logoutQs cfg
  else cfg.logoutUri ++ "?" ++ logoutQs cfg

/-- The public operations that can run on one controller instance, for
invariant statements over arbitrary call sequences. -/
inductive Op
  | refresh (fuel : Nat) (opts : RefreshOptions)
  | start (fuel : Nat) (opts : RefreshOptions)
  | stop
  | logoutOp
deriving DecidableEq

def applyOp (cfg : Config) (s : St) : Op → St
  | Op.refresh fuel opts => refreshAccessToken cfg fuel opts s
  | Op.start fuel opts => startAutomaticTokenRefresh cfg fuel opts s
  | Op.stop => stopAutomaticTokenRefresh s
  | Op.logoutOp => logout cfg s

def applyOps (cfg : Config) : List Op → St → St
  | [], s => s
  | op :: ops, s => applyOps cfg ops (applyOp cfg s op)

def timerView (s : St) : Option Nat × List Nat × List Nat × Nat :=
  (s.refreshInterval, s.timers, s.activeTimers, s.nextHandle)

/-! ### APIBasedAuth (src/APIBasedAuth.ts)

The controller state is the in-memory session cache plus the key/value
store behind the Storage capability (getItem is first lookup, setItem is
update or append).  Each HTTP call of a scenario is driven by the
provider response passed for that call; a rejected axios promise carries
a JsError.  A JS object property that is absent is none; the session
record created by initiatePasswordlessAuth always carries both
properties, and a property whose value is undefined behaves like an
absent one for every input the claims touch. -/

inductive JsError
  | axiosEnvelope (message : String) (responseData : Option String)
  | raw (s : String)
deriving DecidableEq

/-- utils/helper.ts formatAxiosError, as the map from the caught error to
the value it rethrows: a non-axios error is wrapped in a new AxiosError
of its string form; an axios error is unwrapped to its response body,
with the fallback string for a missing or falsy body. -/
def formatAxiosError : JsError → JsError
  | JsError.axiosEnvelope _ d =>
    match d with
    | some body =>
      if body = "" then JsError.raw "unknown axios error" else JsError.raw body
    | none => JsError.raw "unknown axios error"
  | JsError.raw msg => JsError.axiosEnvelope msg none

def API_AUTH_STORAGE_KEY : String := "lo-app-tools-api-auth"

structure StorageKeys where
  accessToken : Option String := some "lo-app-tools-api-auth.accessToken"
  idToken : Option String := some "lo-app-tools-api-auth.idToken"
  refreshToken : Option String := some "lo-app-tools-api-auth.refreshToken"
  session : Option String := some "lo-app-tools-api-auth.session"
  username : Option String := some "lo-app-tools-api-auth.username"
deriving DecidableEq

structure ApiConfig where
  clientId : String
  hasStorage : Bool := true
  storageKeys : StorageKeys := {}
deriving DecidableEq

structure SessionRec where
  session : Option String := none
  username : Option String := none
deriving DecidableEq

structure Tokens where
  accessToken : String
  idToken : String
  refreshToken : String
deriving DecidableEq

structure ApiSt where
  session : Option SessionRec
  store : List (String × String)
deriving DecidableEq

structure VerifyRequest where
  clientId : String
  code : String
  session : Option String
  username : Option String
deriving DecidableEq

structure PasswordlessAuthRequest where
  appsBaseUri : String
  clientId : String
  loginAppBasePath : String
  username : String
deriving DecidableEq

structure InitResp where
  session : Option String
deriving DecidableEq

/-- APIBasedAuth._getFromStorage: the cached session object is returned
when present (even when empty); otherwise, with a storage configured,
each session key with a configured storage key is read, truthy items are
kept, and the assembled record is cached. -/
def getFromStorage (cfg : ApiConfig) (st : ApiSt) : SessionRec × ApiSt :=
  match st.session with
  | some cached => (cached, st)
  | none =>
    if cfg.hasStorage then
      let v1 := match cfg.storageKeys.session with
        | some k =>
          match getProp st.store k with
          | some item => if item ≠ "" then some item else none
          | none => none
        | none => none
      let v2 := match cfg.storageKeys.username with
        | some k =>
          match getProp st.store k with
          | some item => if item ≠ "" then some item else none
          | none => none
        | none => none
      (⟨v1, v2⟩, { st with session := some ⟨v1, v2⟩ })
    else ({}, st)

/-- APIBasedAuth._store for the token fields, reached through setTokens:
every token key with a configured storage key is written in the order
accessToken, idToken, refreshToken. -/
def storeTokens (cfg : ApiConfig) (tk : Tokens) (st : ApiSt) : ApiSt :=
  if cfg.hasStorage then
    let s1 := match cfg.storageKeys.accessToken with
      | some k => setKey st.store k tk.accessToken
      | none => st.store
    let s2 := match cfg.storageKeys.idToken with
      | some k => setKey s1 k tk.idToken
      | none => s1
    let s3 := match cfg.storageKeys.refreshToken with
      | some k => setKey s2 k tk.refreshToken
      | none => s2
    { st with store := s3 }
  else st

/-- APIBasedAuth._store for a session record: the cache is set, then with
a storage configured each of session and username whose storage key is
configured and whose value is a string is written. -/
def storeSession (cfg : ApiConfig) (rec : SessionRec) (st : ApiSt) : ApiSt :=
  let st1 := { st with session := some rec }
  if cfg.hasStorage then
    let s1 := match cfg.storageKeys.session, rec.session with
      | some k, some v => setKey st1.store k v
      | _, _ => st1.store
    let s2 := match cfg.storageKeys.username, rec.username with
      | some k, some v => setKey s1 k v
      | _, _ => s1
    { st1 with store := s2 }
  else st1

/-- APIBasedAuth.confirmPasswordlessAuth: when session or username is
missing from the call, the stored properties are spread over the input;
the verify request is posted; on success the tokens are persisted via
setTokens and returned; a rejection is returned to the caller without
any catch. -/
def confirmPasswordlessAuth (cfg : ApiConfig) (resp : Except JsError Tokens)
    (code : String) (sessionArg usernameArg : Option String) (st : ApiSt) :
    Except JsError Tokens × ApiSt × VerifyRequest :=
  let backfilled :=
    if sessionArg.isNone ∨ usernameArg.isNone then
      let (stored, st1) := getFromStorage cfg st
      ((match stored.session with
        | some v => some v
        | none => sessionArg,
        match stored.username with
        | some v => some v
        | none => usernameArg), st1)
    else ((sessionArg, usernameArg), st)
  let req : VerifyRequest :=
    { clientId := cfg.clientId, code := code,
      session := backfilled.1.1, username := backfilled.1.2 }
  match resp with
  | Except.ok data => (Except.ok data, storeTokens cfg data backfilled.2, req)
  | Except.error e => (Except.error e, backfilled.2, req)

/-- APIBasedAuth.initiatePasswordlessAuth: post the passwordless-auth
request; on success store the session record built from the returned
session and the username, and return the response; a rejection is
returned to the caller without any catch. -/
def initiatePasswordlessAuth (cfg : ApiConfig) (resp : Except JsError InitResp)
    (appsBaseUri loginAppBasePath username : String) (st : ApiSt) :
    Except JsError InitResp × ApiSt × PasswordlessAuthRequest :=
  let req : PasswordlessAuthRequest :=
    { appsBaseUri := appsBaseUri, clientId := cfg.clientId,
      loginAppBasePath := loginAppBasePath, username := username }
  match resp with
  | Except.ok data =>
    (Except.ok data,
      storeSession cfg { session := data.session, username := some username } st,
      req)
  | Except.error e => (Except.error e, st, req)

/-- The continuation of the catch handler inside refreshAccessToken: a
done outcome is final, a retry re-enters refreshAccessToken with one
fuel less. -/
def afterCatch (cfg : Config) (fuel : Nat) (opts : RefreshOptions) (x : St) : St :=
  match catchStep cfg opts x with
  | CatchOut.done s2 => s2
  | CatchOut.retry o2 s2 => refreshAccessToken cfg fuel o2 s2

/-! ### Concrete fixtures for witnesses and counterexamples -/

def cfg0 : Config :=
  { clientId := "7cbji8hkta84ons79j34qcfdci",
    authorizationUri := "https://integ-test/authorize",
    accessTokenUri := "https://integ-test/token",
    redirectUri := "http://localhost:3000/callback",
    logoutUri := "https://integ-test/logout",
    logoutRedirectUri := "http://localhost:3000/logout",
    scopes := ["openid"],
    authUri := "http://integ-test/oauth-uri" }

def loc0 : Loc :=
  { protocol := "https:", hostname := "unit-test", port := "", pathname := "",
    search := [], href := "https://unit-test" }

def raw0 : RawTokenData :=
  { access_token := "access_token", expires_in := some 3600,
    id_token := some "id_token", refresh_token := "refresh_token",
    token_type := some "Bearer" }

def tok0 : Token :=
  { accessToken := "access_token", refreshToken := "refresh-token",
    data := raw0, expires := 100 }

def st0 : St :=
  { token := none, storage := none, appState := [], loc := loc0,
    redirectLog := [], histLog := [], now := 0, exchangeOracle := [],
    fetchOracle := [], fetchLog := [], removeLog := 0,
    refreshInterval := none, timers := [], activeTimers := [],
    nextHandle := 1, cookie := none, cookieWrites := [] }

def respBad : FetchResp := { ok := false, json := none }

def stC1 : St :=
  { st0 with token := some tok0, storage := some (storeTokenData tok0),
             fetchOracle := [some respBad] }

def dC2 : TokenData := { raw := raw0, expires := 330000 }

def stC2 : St :=
  { st0 with storage := some dC2, exchangeOracle := [none] }

def dC2b : TokenData := { raw := raw0, expires := 360000 }

def stC2b : St :=
  { st0 with storage := some dC2b, exchangeOracle := [none] }

def dC3 : TokenData := { raw := raw0, expires := 100 }

def respJson0 : RespJson :=
  { access_token := "access_token", expires_in := 3600,
    id_token := some "id_token", refresh_token := none,
    token_type := some "Bearer" }

def respOk0 : FetchResp := { ok := true, json := some respJson0 }

def stC3 : St :=
  { st0 with storage := some dC3, exchangeOracle := [none],
             fetchOracle := [some respOk0] }

/-! ### Claim C4: the application state codec -/

instance (s : String) : Decidable (latin1Str s) :=
  inferInstanceAs (Decidable (∀ c ∈ s.data, c.toNat < 256))

instance (l : List (String × String)) : Decidable (latin1Obj l) :=
  inferInstanceAs (Decidable (∀ p ∈ l, latin1Str p.1 ∧ latin1Str p.2))

def searchC4 : List (String × String) :=
  [("account", "acct1"), ("unrelated", "zz"), ("projectId", "p-9")]

def ctorC4 : List (String × String) := [("from", "login")]

def encC4 : String :=
  ((getStateForClientOAuth searchC4 "/home" ctorC4).getD none).getD ""

/-! ### Claim C5: the hand-off cookie (modelled from the spec) -/

def cookieView (s : St) : Option CookieData × List String :=
  (s.cookie, s.cookieWrites)

def cookie0 : CookieData :=
  { access_token := "cookie-access", refresh_token := "cookie-refresh",
    expires := 999999, clientId := "7cbji8hkta84ons79j34qcfdci",
    cookieDomain := "us.skillspring.com" }

def stC5 : St := { st0 with cookie := some cookie0 }

/-! ### Claims C6 and C7: the API-based controller -/

def apiCfg0 : ApiConfig := { clientId := "client-id" }

def envC6 : JsError :=
  JsError.axiosEnvelope "Request failed with status code 400" (some "invalid_grant")

def tokens0 : Tokens :=
  { accessToken := "access-token", idToken := "id-token",
    refreshToken := "refresh-token" }

def cfgC8 : Config :=
  { clientId := "7cbji8hkta84ons79j34qcfdci",
    authorizationUri := "https://auth.us.skillspring.com/authorize",
    accessTokenUri := "https://auth.us.skillspring.com/token",
    redirectUri := "http://localhost:3000/callback",
    logoutUri := "https://auth.us.skillspring.com/logout?logout=pending",
    logoutRedirectUri := "http://localhost:3000/logout",
    scopes := ["openid"],
    authUri := "https://auth.us.skillspring.com/oauth-uri" }

/-- The interval installation step of startAutomaticTokenRefresh, split
out from the initial acquire it may run first. -/
def installInterval (x : St) : St :=
  match x.refreshInterval with
  | none =>
    { x with refreshInterval := some x.nextHandle,
             timers := x.timers ++ [x.nextHandle],
             activeTimers := x.activeTimers ++ [x.nextHandle],
             nextHandle := x.nextHandle + 1 }
  | some _ => x

def stC10 : St :=
  { st0 with refreshInterval := some 1, timers := [1], activeTimers := [1] }

/-! ### Theorems -/

theorem b64Index_b64Char : ∀ n, n < 64 → b64Index (b64Char n) = some n := by
  decide

theorem b64Char_ne_pad : ∀ n, n < 64 → b64Char n ≠ '=' := by
  decide

theorem b64EncodeBytes_lt (bs : List Nat) (h : ∀ b ∈ bs, b < 256) :
    b64DecodeBytes (b64EncodeBytes bs) = some bs := by
  induction bs using b64EncodeBytes.induct with
  | case1 => rfl
  | case2 b1 =>
    have hb1 : b1 < 256 := h b1 (by simp)
    have e1 : b1 / 4 < 64 := by omega
    have e2 : b1 % 4 * 16 < 64 := by omega
    simp only [b64EncodeBytes, b64DecodeBytes]
    rw [if_pos (by simp)]
    simp only [b64Index_b64Char _ e1, b64Index_b64Char _ e2,
      Option.bind_eq_bind, Option.some_bind, Option.some.injEq,
      List.cons.injEq, and_true]
    omega
  | case3 b1 b2 =>
    have hb1 : b1 < 256 := h b1 (by simp)
    have hb2 : b2 < 256 := h b2 (by simp)
    have e1 : b1 / 4 < 64 := by omega
    have e2 : b1 % 4 * 16 + b2 / 16 < 64 := by omega
    have e3 : b2 % 16 * 4 < 64 := by omega
    simp only [b64EncodeBytes, b64DecodeBytes]
    rw [if_neg (by simp [b64Char_ne_pad _ e3])]
    rw [if_pos (by simp)]
    simp only [b64Index_b64Char _ e1, b64Index_b64Char _ e2,
      b64Index_b64Char _ e3, Option.bind_eq_bind, Option.some_bind,
      Option.some.injEq, List.cons.injEq, and_true]
    omega
  | case4 b1 b2 b3 rest ih =>
    have hb1 : b1 < 256 := h b1 (by simp)
    have hb2 : b2 < 256 := h b2 (by simp)
    have hb3 : b3 < 256 := h b3 (by simp)
    have e1 : b1 / 4 < 64 := by omega
    have e2 : b1 % 4 * 16 + b2 / 16 < 64 := by omega
    have e3 : b2 % 16 * 4 + b3 / 64 < 64 := by omega
    have e4 : b3 % 64 < 64 := by omega
    have ihh := ih (fun b hb => h b (by simp [hb]))
    simp only [b64EncodeBytes, b64DecodeBytes]
    rw [if_neg (by simp [b64Char_ne_pad _ e4])]
    rw [if_neg (by simp [b64Char_ne_pad _ e4])]
    simp only [b64Index_b64Char _ e1, b64Index_b64Char _ e2,
      b64Index_b64Char _ e3, b64Index_b64Char _ e4, Option.bind_eq_bind,
      Option.some_bind, ihh, Option.some.injEq, List.cons.injEq]
    exact ⟨by omega, by omega, by omega, trivial⟩

theorem atob_btoa (s : String) (h : ∀ c ∈ s.data, c.toNat < 256) :
    atob ((btoa s).getD "") = some s := by
  obtain ⟨data⟩ := s
  have hall : data.all (fun c => c.toNat < 256) = true := by
    simp only [List.all_eq_true, decide_eq_true_eq]
    exact h
  have hbytes : ∀ b ∈ data.map Char.toNat, b < 256 := by
    intro b hb
    rcases List.mem_map.mp hb with ⟨c, hc, rfl⟩
    exact h c hc
  have hmaps : (data.map Char.toNat).map Char.ofNat = data := by
    rw [List.map_map]
    calc data.map (Char.ofNat ∘ Char.toNat)
        = data.map id := List.map_congr_left (fun c _ => Char.ofNat_toNat c)
      _ = data := List.map_id data
  simp only [btoa, hall, if_pos, Option.getD_some, atob,
    b64EncodeBytes_lt _ hbytes, Option.map_some', hmaps]

theorem hexDigitVal_hexDigitChar : ∀ n, n < 16 → hexDigitVal (hexDigitChar n) = some n := by
  decide

theorem parseStrBodyF_jsonEscape (s : List Char) :
    ∀ fuel rest, s.length < fuel →
      parseStrBodyF fuel (jsonEscape s ++ ('"' :: rest)) = some (s, rest) := by
  induction s with
  | nil =>
    intro fuel rest hf
    match fuel, hf with
    | f + 1, _ => rfl
  | cons c cs ih =>
    intro fuel rest hf
    match fuel, hf with
    | f + 1, hf =>
      have hcs : cs.length < f := by
        simp only [List.length_cons] at hf
        omega
      have step :
          parseStrBodyF (f + 1) (jsonEscapeChar c ++ (jsonEscape cs ++ ('"' :: rest))) =
            some (c :: cs, rest) := by
        by_cases h1 : c = '"'
        · subst h1
          rw [show jsonEscapeChar '"' = ['\\', '"'] from by decide]
          show ((readEscChar ('"' :: (jsonEscape cs ++ ('"' :: rest)))).bind (fun dr =>
            (parseStrBodyF f dr.2).map (fun p => (dr.1 :: p.1, p.2)))) = _
          rw [show ∀ t, readEscChar ('"' :: t) = some ('"', t) from fun t => rfl]
          simp [ih f rest hcs]
        · by_cases h2 : c = '\\'
          · subst h2
            rw [show jsonEscapeChar '\\' = ['\\', '\\'] from by decide]
            show ((readEscChar ('\\' :: (jsonEscape cs ++ ('"' :: rest)))).bind (fun dr =>
              (parseStrBodyF f dr.2).map (fun p => (dr.1 :: p.1, p.2)))) = _
            rw [show ∀ t, readEscChar ('\\' :: t) = some ('\\', t) from fun t => rfl]
            simp [ih f rest hcs]
          · by_cases h3 : c = Char.ofNat 8
            · subst h3
              rw [show jsonEscapeChar (Char.ofNat 8) = ['\\', 'b'] from by decide]
              show ((readEscChar ('b' :: (jsonEscape cs ++ ('"' :: rest)))).bind (fun dr =>
                (parseStrBodyF f dr.2).map (fun p => (dr.1 :: p.1, p.2)))) = _
              rw [show ∀ t, readEscChar ('b' :: t) = some (Char.ofNat 8, t) from fun t => rfl]
              simp [ih f rest hcs]
            · by_cases h4 : c = Char.ofNat 9
              · subst h4
                rw [show jsonEscapeChar (Char.ofNat 9) = ['\\', 't'] from by decide]
                show ((readEscChar ('t' :: (jsonEscape cs ++ ('"' :: rest)))).bind (fun dr =>
                  (parseStrBodyF f dr.2).map (fun p => (dr.1 :: p.1, p.2)))) = _
                rw [show ∀ t, readEscChar ('t' :: t) = some (Char.ofNat 9, t) from fun t => rfl]
                simp [ih f rest hcs]
              · by_cases h5 : c = Char.ofNat 10
                · subst h5
                  rw [show jsonEscapeChar (Char.ofNat 10) = ['\\', 'n'] from by decide]
                  show ((readEscChar ('n' :: (jsonEscape cs ++ ('"' :: rest)))).bind (fun dr =>
                    (parseStrBodyF f dr.2).map (fun p => (dr.1 :: p.1, p.2)))) = _
                  rw [show ∀ t, readEscChar ('n' :: t) = some (Char.ofNat 10, t) from
                    fun t => rfl]
                  simp [ih f rest hcs]
                · by_cases h6 : c = Char.ofNat 12
                  · subst h6
                    rw [show jsonEscapeChar (Char.ofNat 12) = ['\\', 'f'] from by decide]
                    show ((readEscChar ('f' :: (jsonEscape cs ++ ('"' :: rest)))).bind (fun dr =>
                      (parseStrBodyF f dr.2).map (fun p => (dr.1 :: p.1, p.2)))) = _
                    rw [show ∀ t, readEscChar ('f' :: t) = some (Char.ofNat 12, t) from
                      fun t => rfl]
                    simp [ih f rest hcs]
                  · by_cases h7 : c = Char.ofNat 13
                    · subst h7
                      rw [show jsonEscapeChar (Char.ofNat 13) = ['\\', 'r'] from by decide]
                      show ((readEscChar ('r' :: (jsonEscape cs ++ ('"' :: rest)))).bind (fun dr =>
                        (parseStrBodyF f dr.2).map (fun p => (dr.1 :: p.1, p.2)))) = _
                      rw [show ∀ t, readEscChar ('r' :: t) = some (Char.ofNat 13, t) from
                        fun t => rfl]
                      simp [ih f rest hcs]
                    · by_cases h8 : c.toNat < 32
                      · rw [show jsonEscapeChar c =
                            ['\\', 'u', '0', '0', hexDigitChar (c.toNat / 16),
                              hexDigitChar (c.toNat % 16)] from by
                          simp only [jsonEscapeChar, if_neg h1, if_neg h2, if_neg h3,
                            if_neg h4, if_neg h5, if_neg h6, if_neg h7, if_pos h8]]
                        have d3 : c.toNat / 16 < 16 := by omega
                        have d4 : c.toNat % 16 < 16 := by omega
                        show ((readEscChar ('u' :: '0' :: '0' :: hexDigitChar (c.toNat / 16) ::
                            hexDigitChar (c.toNat % 16) ::
                            (jsonEscape cs ++ ('"' :: rest)))).bind (fun dr =>
                          (parseStrBodyF f dr.2).map (fun p => (dr.1 :: p.1, p.2)))) = _
                        rw [show ∀ a b t, readEscChar ('u' :: '0' :: '0' :: a :: b :: t) =
                            ((hexDigitVal a).bind (fun v3 => (hexDigitVal b).bind (fun v4 =>
                              some (Char.ofNat (((0 * 16 + 0) * 16 + v3) * 16 + v4), t))))
                            from fun a b t => rfl]
                        rw [hexDigitVal_hexDigitChar _ d3, hexDigitVal_hexDigitChar _ d4]
                        simp only [Option.bind_eq_bind, Option.some_bind]
                        have hv : ((0 * 16 + 0) * 16 + c.toNat / 16) * 16 + c.toNat % 16
                            = c.toNat := by omega
                        rw [hv]
                        simp [ih f rest hcs, Char.ofNat_toNat]
                      · rw [show jsonEscapeChar c = [c] from by
                          simp only [jsonEscapeChar, if_neg h1, if_neg h2, if_neg h3,
                            if_neg h4, if_neg h5, if_neg h6, if_neg h7, if_neg h8]]
                        simp only [List.cons_append, List.nil_append]
                        rw [parseStrBodyF]
                        rw [if_neg h1, if_neg h2, ih f rest hcs]
                        rfl
      simpa only [jsonEscape, List.append_assoc] using step

theorem String.mk_data_eq (s : String) : String.mk s.data = s := by
  obtain ⟨d⟩ := s
  rfl

theorem jsonEscapeChar_len (c : Char) : 1 ≤ (jsonEscapeChar c).length := by
  unfold jsonEscapeChar
  split_ifs <;> simp

theorem jsonEscape_len (s : List Char) : s.length ≤ (jsonEscape s).length := by
  induction s with
  | nil => simp [jsonEscape]
  | cons c cs ih =>
    have := jsonEscapeChar_len c
    simp only [jsonEscape, List.length_append, List.length_cons]
    omega

theorem jsonStrLit_len (s : String) : s.data.length + 2 ≤ (jsonStrLit s).length := by
  have := jsonEscape_len s.data
  simp only [jsonStrLit, List.length_cons, List.length_append]
  omega

theorem jsonObjBody_bound (l : List (String × String)) :
    ∀ p ∈ l, p.1.data.length < (jsonObjBody l).length ∧
      p.2.data.length < (jsonObjBody l).length := by
  induction l using jsonObjBody.induct with
  | case1 => intro p hp; simp at hp
  | case2 k v =>
    intro p hp
    have hk := jsonStrLit_len k
    have hv := jsonStrLit_len v
    rcases List.mem_singleton.mp hp with rfl
    simp only [jsonObjBody, List.length_append, List.length_cons]
    constructor <;> omega
  | case3 k v q rest ih =>
    intro p hp
    have hk := jsonStrLit_len k
    have hv := jsonStrLit_len v
    rcases List.mem_cons.mp hp with rfl | hmem
    · simp only [jsonObjBody, List.length_append, List.length_cons]
      constructor <;> omega
    · have := ih p hmem
      simp only [jsonObjBody, List.length_append, List.length_cons] at this ⊢
      constructor <;> omega

theorem parseJsonPair_encode (k v : String) (fuel : Nat) (tail : List Char)
    (hk : k.data.length < fuel) (hv : v.data.length < fuel) :
    parseJsonPair fuel (jsonStrLit k ++ ((':' :: jsonStrLit v) ++ tail)) =
      some ((k, v), tail) := by
  have hshape : jsonStrLit k ++ ((':' :: jsonStrLit v) ++ tail) =
      '"' :: (jsonEscape k.data ++
        ('"' :: (':' :: '"' :: (jsonEscape v.data ++ ('"' :: tail))))) := by
    simp [jsonStrLit, List.append_assoc]
  rw [hshape]
  have h1 := parseStrBodyF_jsonEscape k.data fuel
    (':' :: '"' :: (jsonEscape v.data ++ ('"' :: tail))) hk
  have h2 := parseStrBodyF_jsonEscape v.data fuel tail hv
  show (match parseStrBodyF fuel (jsonEscape k.data ++
      ('"' :: (':' :: '"' :: (jsonEscape v.data ++ ('"' :: tail))))) with
    | some (kk, ':' :: '"' :: rest2) =>
      match parseStrBodyF fuel rest2 with
      | some (vv, rest3) => some ((String.mk kk, String.mk vv), rest3)
      | none => none
    | _ => none) = some ((k, v), tail)
  rw [h1]
  simp [h2, String.mk_data_eq]

theorem parseJsonPairs_objBody (l : List (String × String)) :
    l ≠ [] →
    ∀ fuel strFuel tail,
      l.length ≤ fuel →
      (∀ p ∈ l, p.1.data.length < strFuel ∧ p.2.data.length < strFuel) →
      parseJsonPairs strFuel fuel (jsonObjBody l ++ ('}' :: tail)) = some (l, tail) := by
  induction l using jsonObjBody.induct with
  | case1 => intro h; exact absurd rfl h
  | case2 k v =>
    intro _ fuel strFuel tail hfuel hstr
    match fuel, hfuel with
    | f + 1, _ =>
      have hk := (hstr (k, v) (by simp)).1
      have hv := (hstr (k, v) (by simp)).2
      have hpair := parseJsonPair_encode k v strFuel ('}' :: tail) hk hv
      show (match parseJsonPair strFuel (jsonObjBody [(k, v)] ++ ('}' :: tail)) with
        | some (p, '}' :: rest) => some ([p], rest)
        | some (p, ',' :: rest) =>
          match parseJsonPairs strFuel f rest with
          | some (ps, rest2) => some (p :: ps, rest2)
          | none => none
        | _ => none) = some ([(k, v)], tail)
      have hb : jsonObjBody [(k, v)] ++ ('}' :: tail) =
          jsonStrLit k ++ ((':' :: jsonStrLit v) ++ ('}' :: tail)) := by
        simp [jsonObjBody, List.append_assoc]
      rw [hb, hpair]
      rfl
  | case3 k v q hne ih =>
    intro _ fuel strFuel tail hfuel hstr
    rcases hq : q with _ | ⟨q0, qrest⟩
    · exact absurd hq hne
    · subst hq
      match fuel, hfuel with
      | f + 1, hfuel =>
        have hk := (hstr (k, v) (by simp)).1
        have hv := (hstr (k, v) (by simp)).2
        have htail : parseJsonPairs strFuel f
            (jsonObjBody (q0 :: qrest) ++ ('}' :: tail)) =
            some (q0 :: qrest, tail) := by
          refine ih (by simp) f strFuel tail ?_ ?_
          · simp only [List.length_cons] at hfuel ⊢
            omega
          · intro p hp
            exact hstr p (List.mem_cons_of_mem _ hp)
        have hpair := parseJsonPair_encode k v strFuel
          (',' :: (jsonObjBody (q0 :: qrest) ++ ('}' :: tail))) hk hv
        show (match parseJsonPair strFuel
            (jsonObjBody ((k, v) :: q0 :: qrest) ++ ('}' :: tail)) with
          | some (p, '}' :: r) => some ([p], r)
          | some (p, ',' :: r) =>
            match parseJsonPairs strFuel f r with
            | some (ps, rest2) => some (p :: ps, rest2)
            | none => none
          | _ => none) = some ((k, v) :: q0 :: qrest, tail)
        have hb : jsonObjBody ((k, v) :: q0 :: qrest) ++ ('}' :: tail) =
            jsonStrLit k ++ ((':' :: jsonStrLit v) ++
              (',' :: (jsonObjBody (q0 :: qrest) ++ ('}' :: tail)))) := by
          simp [jsonObjBody, List.append_assoc]
        rw [hb, hpair]
        simp [htail]

theorem jsonObjBody_cons_shape (k v : String) (l : List (String × String)) :
    ∃ B, jsonObjBody ((k, v) :: l) = '"' :: B := by
  cases l with
  | nil => exact ⟨jsonEscape k.data ++ ['"'] ++ (':' :: jsonStrLit v), by
      simp [jsonObjBody, jsonStrLit, List.append_assoc]⟩
  | cons q rest => exact ⟨jsonEscape k.data ++ ['"'] ++ ((':' :: jsonStrLit v) ++
      (',' :: jsonObjBody (q :: rest))), by
      simp [jsonObjBody, jsonStrLit, List.append_assoc]⟩

theorem jsonObjBody_len_ge (l : List (String × String)) :
    l.length ≤ (jsonObjBody l).length := by
  induction l using jsonObjBody.induct with
  | case1 => simp [jsonObjBody]
  | case2 k v =>
    have := jsonStrLit_len k
    simp only [jsonObjBody, List.length_cons, List.length_append, List.length_nil]
    omega
  | case3 k v q hne ih =>
    have := jsonStrLit_len k
    rcases q with _ | ⟨q0, qrest⟩
    · exact absurd rfl hne
    · simp only [jsonObjBody, List.length_cons, List.length_append] at ih ⊢
      omega

theorem jsonParseObj_stringifyObj (l : List (String × String)) :
    jsonParseObj (jsonStringifyObj l) = some l := by
  cases l with
  | nil => rfl
  | cons p l2 =>
    obtain ⟨k, v⟩ := p
    obtain ⟨B, hB⟩ := jsonObjBody_cons_shape k v l2
    have hcs : (jsonStringifyObj ((k, v) :: l2)).data =
        '{' :: '"' :: (B ++ ['}']) := by
      simp [jsonStringifyObj, hB]
    have hbound := jsonObjBody_bound ((k, v) :: l2)
    have hlenle := jsonObjBody_len_ge ((k, v) :: l2)
    have hpairs : parseJsonPairs ((jsonObjBody ((k, v) :: l2) ++ ['}']).length + 1)
        ((jsonObjBody ((k, v) :: l2) ++ ['}']).length + 1)
        (jsonObjBody ((k, v) :: l2) ++ ('}' :: [])) = some ((k, v) :: l2, []) := by
      refine parseJsonPairs_objBody ((k, v) :: l2) (by simp) _ _ [] ?_ ?_
      · simp only [List.length_append]
        omega
      · intro q hq
        have := hbound q hq
        simp only [List.length_append]
        omega
    have hfinal : jsonParseObj (String.mk ('{' :: '"' :: (B ++ ['}']))) =
        (match parseJsonPairs (('"' :: (B ++ ['}'])).length + 1)
            (('"' :: (B ++ ['}'])).length + 1) ('"' :: (B ++ ['}'])) with
          | some (ps, []) => some ps
          | _ => none) := rfl
    have hcs2 : '"' :: (B ++ ['}']) = jsonObjBody ((k, v) :: l2) ++ ('}' :: []) := by
      rw [hB]
      rfl
    calc jsonParseObj (jsonStringifyObj ((k, v) :: l2))
        = jsonParseObj (String.mk ('{' :: '"' :: (B ++ ['}']))) := by
          rw [show jsonStringifyObj ((k, v) :: l2) =
            String.mk ('{' :: '"' :: (B ++ ['}'])) from by
            rw [← String.mk_data_eq (jsonStringifyObj ((k, v) :: l2)), hcs]]
      _ = some ((k, v) :: l2) := by
          rw [hfinal]
          rw [show ('"' :: (B ++ ['}'])) = jsonObjBody ((k, v) :: l2) ++ ('}' :: [])
            from hcs2]
          rw [hpairs]

theorem setKey_not_mem (l : List (String × String)) (k v : String)
    (h : k ∉ keysOf l) : setKey l k v = l ++ [(k, v)] := by
  induction l with
  | nil => rfl
  | cons p rest ih =>
    obtain ⟨k1, v1⟩ := p
    have hk1 : k1 ≠ k := by
      intro hk
      exact h (by simp [keysOf, hk])
    have hrest : k ∉ keysOf rest := by
      intro hm
      exact h (by simp [keysOf] at hm ⊢; exact Or.inr hm)
    simp [setKey, hk1, ih hrest]

theorem objAssign_nil_append (l : List (String × String)) :
    ∀ target, (keysOf (target ++ l)).Nodup → objAssign target l = target ++ l := by
  induction l with
  | nil => intro target _; simp [objAssign]
  | cons p rest ih =>
    intro target hnd
    obtain ⟨k, v⟩ := p
    have hknotin : k ∉ keysOf target := by
      have h2 : (keysOf target ++ k :: keysOf rest).Nodup := by
        simpa [keysOf] using hnd
      rcases List.nodup_append.mp h2 with ⟨_, _, hdisj⟩
      intro hm
      exact hdisj hm (by simp)
    show objAssign (setKey target k v) rest = target ++ (k, v) :: rest
    rw [setKey_not_mem target k v hknotin]
    have hnd2 : (keysOf ((target ++ [(k, v)]) ++ rest)).Nodup := by
      simpa [keysOf] using hnd
    rw [ih (target ++ [(k, v)]) hnd2]
    simp

theorem objAssign_nil (l : List (String × String)) (h : (keysOf l).Nodup) :
    objAssign [] l = l := by
  have := objAssign_nil_append l [] (by simpa [keysOf] using h)
  simpa using this

theorem keysOf_setKey (l : List (String × String)) (k v : String) :
    keysOf (setKey l k v) = if k ∈ keysOf l then keysOf l else keysOf l ++ [k] := by
  induction l with
  | nil => simp [setKey, keysOf]
  | cons p rest ih =>
    obtain ⟨k1, v1⟩ := p
    by_cases hk : k1 = k
    · subst hk
      simp [setKey, keysOf]
    · simp only [setKey, if_neg hk]
      rw [show keysOf ((k1, v1) :: setKey rest k v) = k1 :: keysOf (setKey rest k v)
        from rfl]
      rw [ih]
      rw [show keysOf ((k1, v1) :: rest) = k1 :: keysOf rest from rfl]
      by_cases hmem : k ∈ keysOf rest
      · rw [if_pos hmem, if_pos (List.mem_cons_of_mem _ hmem)]
      · rw [if_neg hmem, if_neg (by
          intro hc
          rcases List.mem_cons.mp hc with h | h
          · exact hk h.symm
          · exact hmem h)]
        simp

theorem nodup_setKey (l : List (String × String)) (k v : String)
    (h : (keysOf l).Nodup) : (keysOf (setKey l k v)).Nodup := by
  rw [keysOf_setKey]
  by_cases hmem : k ∈ keysOf l
  · rw [if_pos hmem]; exact h
  · rw [if_neg hmem]
    simp only [List.nodup_append, List.nodup_singleton]
    exact ⟨h, by simp, by intro a ha hb; simp at hb; subst hb; exact hmem ha⟩

theorem nodup_objAssign (l : List (String × String)) :
    ∀ target, (keysOf target).Nodup → (keysOf (objAssign target l)).Nodup := by
  induction l with
  | nil => intro target h; exact h
  | cons p rest ih =>
    intro target h
    exact ih (setKey target p.1 p.2) (nodup_setKey target p.1 p.2 h)

theorem nodup_decodeAppState (search : List (String × String)) (pathname : String) :
    (keysOf (decodeAppState search pathname)).Nodup := by
  have base : ∀ (params : List String) (acc : List (String × String)),
      (keysOf acc).Nodup →
      (keysOf (params.foldl (fun acc param =>
        match lookupParam search param with
        | some v => if v ≠ "" then setKey acc param v else acc
        | none => acc) acc)).Nodup := by
    intro params
    induction params with
    | nil => intro acc h; exact h
    | cons q qs ih =>
      intro acc h
      refine ih _ ?_
      cases hl : lookupParam search q with
      | none => simpa [hl] using h
      | some v =>
        by_cases hv : v = ""
        · simpa [hl, hv] using h
        · simpa [hl, hv] using nodup_setKey acc q v h
  have h1 := base LO_QUERY_STRING_PARAMS [] (by simp [keysOf])
  unfold decodeAppState
  cases hq : lookupParam search "state" with
  | none =>
    by_cases hp : pathname ≠ "" ∧ pathname ≠ "/"
    · simp only [hq, if_pos hp]
      exact nodup_setKey _ _ _ h1
    · simp only [hq, if_neg hp]
      exact h1
  | some qs =>
    have h2 : (keysOf (if pathname ≠ "" ∧ pathname ≠ "/" then
        setKey (LO_QUERY_STRING_PARAMS.foldl (fun acc param =>
          match lookupParam search param with
          | some v => if v ≠ "" then setKey acc param v else acc
          | none => acc) []) "pathname" pathname
        else (LO_QUERY_STRING_PARAMS.foldl (fun acc param =>
          match lookupParam search param with
          | some v => if v ≠ "" then setKey acc param v else acc
          | none => acc) []))).Nodup := by
      by_cases hp : pathname ≠ "" ∧ pathname ≠ "/"
      · simp only [if_pos hp]
        exact nodup_setKey _ _ _ h1
      · simp only [if_neg hp]
        exact h1
    simp only [hq]
    by_cases hqs : qs ≠ ""
    · simp only [if_pos hqs]
      cases hpr : (atob qs).bind jsonParseObj with
      | none => exact h2
      | some parsed => exact nodup_objAssign parsed _ h2
    · simp only [if_neg hqs]
      exact h2

theorem hexDigitChar_latin1 : ∀ n, n < 16 → (hexDigitChar n).toNat < 256 := by
  decide

theorem jsonEscapeChar_latin1 (c : Char) (h : c.toNat < 256) :
    ∀ d ∈ jsonEscapeChar c, d.toNat < 256 := by
  intro d hd
  unfold jsonEscapeChar at hd
  split_ifs at hd with h1 h2 h3 h4 h5 h6 h7 h8 <;>
    simp only [List.mem_cons, List.not_mem_nil, or_false] at hd
  · rcases hd with rfl | rfl <;> decide
  · rcases hd with rfl | rfl <;> decide
  · rcases hd with rfl | rfl <;> decide
  · rcases hd with rfl | rfl <;> decide
  · rcases hd with rfl | rfl <;> decide
  · rcases hd with rfl | rfl <;> decide
  · rcases hd with rfl | rfl <;> decide
  · rcases hd with rfl | rfl | rfl | rfl | rfl | rfl
    · decide
    · decide
    · decide
    · decide
    · exact hexDigitChar_latin1 _ (by omega)
    · exact hexDigitChar_latin1 _ (by omega)
  · subst hd
    exact h

theorem jsonEscape_latin1 (s : List Char) (h : ∀ c ∈ s, c.toNat < 256) :
    ∀ d ∈ jsonEscape s, d.toNat < 256 := by
  induction s with
  | nil => intro d hd; simp [jsonEscape] at hd
  | cons c cs ih =>
    intro d hd
    simp only [jsonEscape, List.mem_append] at hd
    rcases hd with hd | hd
    · exact jsonEscapeChar_latin1 c (h c (by simp)) d hd
    · exact ih (fun x hx => h x (by simp [hx])) d hd

theorem jsonStrLit_latin1 (s : String) (h : latin1Str s) :
    ∀ d ∈ jsonStrLit s, d.toNat < 256 := by
  intro d hd
  simp only [jsonStrLit, List.mem_cons, List.mem_append] at hd
  rcases hd with rfl | hd | hd
  · decide
  · exact jsonEscape_latin1 s.data h d hd
  · simp at hd; subst hd; decide

theorem jsonObjBody_latin1 (l : List (String × String)) (h : latin1Obj l) :
    ∀ d ∈ jsonObjBody l, d.toNat < 256 := by
  induction l using jsonObjBody.induct with
  | case1 => intro d hd; simp [jsonObjBody] at hd
  | case2 k v =>
    intro d hd
    have hk := (h (k, v) (by simp)).1
    have hv := (h (k, v) (by simp)).2
    simp only [jsonObjBody, List.mem_append, List.mem_cons] at hd
    rcases hd with hd | rfl | hd
    · exact jsonStrLit_latin1 k hk d hd
    · decide
    · exact jsonStrLit_latin1 v hv d hd
  | case3 k v q hne ih =>
    intro d hd
    have hk := (h (k, v) (by simp)).1
    have hv := (h (k, v) (by simp)).2
    simp only [jsonObjBody, List.mem_append, List.mem_cons] at hd
    rcases hd with (hd | rfl | hd) | rfl | hd
    · exact jsonStrLit_latin1 k hk d hd
    · decide
    · exact jsonStrLit_latin1 v hv d hd
    · decide
    · exact ih (fun p hp => h p (List.mem_cons_of_mem _ hp)) d hd

theorem jsonStringifyObj_latin1 (l : List (String × String)) (h : latin1Obj l) :
    ∀ d ∈ (jsonStringifyObj l).data, d.toNat < 256 := by
  intro d hd
  simp only [jsonStringifyObj] at hd
  rcases List.mem_cons.mp hd with rfl | hd
  · decide
  · rcases List.mem_append.mp hd with hd | hd
    · exact jsonObjBody_latin1 l h d hd
    · simp at hd; subst hd; decide

theorem b64EncodeBytes_ne_nil (b : Nat) (bs : List Nat) :
    b64EncodeBytes (b :: bs) ≠ [] := by
  cases bs with
  | nil => simp [b64EncodeBytes]
  | cons b2 bs2 =>
    cases bs2 <;> simp [b64EncodeBytes]

theorem setKey_ne_nil (l : List (String × String)) (k v : String) :
    setKey l k v ≠ [] := by
  cases l with
  | nil => simp [setKey]
  | cons p rest =>
    obtain ⟨k1, v1⟩ := p
    by_cases h : k1 = k <;> simp [setKey, h]

theorem objAssign_ne_nil (src : List (String × String)) :
    ∀ l, l ≠ [] → objAssign l src ≠ [] := by
  induction src with
  | nil => intro l h; exact h
  | cons p rest ih =>
    intro l h
    exact ih (setKey l p.1 p.2) (setKey_ne_nil l p.1 p.2)

theorem decodeAppState_ne_nil (search : List (String × String)) (pathname : String)
    (hp : pathname ≠ "" ∧ pathname ≠ "/") :
    decodeAppState search pathname ≠ [] := by
  unfold decodeAppState
  simp only [if_pos hp]
  cases lookupParam search "state" with
  | none => exact setKey_ne_nil _ _ _
  | some qs =>
    by_cases hqs : qs ≠ ""
    · simp only [if_pos hqs]
      cases (atob qs).bind jsonParseObj with
      | none => exact setKey_ne_nil _ _ _
      | some parsed => exact objAssign_ne_nil parsed _ (setKey_ne_nil _ _ _)
    · simp only [if_neg hqs]
      exact setKey_ne_nil _ _ _

theorem decodeAppState_pure_state (enc : String) (henc : enc ≠ "")
    (st : List (String × String)) (hdec : (atob enc).bind jsonParseObj = some st)
    (hnd : (keysOf st).Nodup) :
    decodeAppState [("state", enc)] "/" = st := by
  have hred : decodeAppState [("state", enc)] "/" =
      (if enc ≠ "" then
        (match (atob enc).bind jsonParseObj with
         | some parsed => objAssign [] parsed
         | none => [])
       else []) := rfl
  rw [hred, if_pos henc, hdec]
  exact objAssign_nil st hnd

theorem catchStep_eq (cfg : Config) (opts : RefreshOptions) (s : St) :
    catchStep cfg opts s =
      (match s.storage with
       | some d =>
         if isTokenExpiring opts (createTokenFromStorage d) s.now then
           CatchOut.retry { expiringRefresh := true }
             { s with token := some (createTokenFromStorage d), storage := none,
                      removeLog := s.removeLog + 1 }
         else CatchOut.done { s with token := some (createTokenFromStorage d) }
       | none =>
         CatchOut.done { s with redirectLog := s.redirectLog ++ [cfg.authUri] }) := rfl

theorem catchStep_storage_some (cfg : Config) (opts : RefreshOptions) (s : St)
    (d : TokenData) (hst : s.storage = some d) :
    catchStep cfg opts s =
      (if isTokenExpiring opts (createTokenFromStorage d) s.now then
        CatchOut.retry { expiringRefresh := true }
          { s with token := some (createTokenFromStorage d), storage := none,
                   removeLog := s.removeLog + 1 }
      else CatchOut.done { s with token := some (createTokenFromStorage d) }) := by
  rw [catchStep_eq, hst]

theorem catchStep_storage_none (cfg : Config) (opts : RefreshOptions) (s : St)
    (hst : s.storage = none) :
    catchStep cfg opts s =
      CatchOut.done { s with redirectLog := s.redirectLog ++ [cfg.authUri] } := by
  rw [catchStep_eq, hst]

theorem catchStep_done_timers (cfg : Config) (opts : RefreshOptions) (s s2 : St)
    (h : catchStep cfg opts s = CatchOut.done s2) : timerView s2 = timerView s := by
  cases hst : s.storage with
  | some d =>
    rw [catchStep_storage_some cfg opts s d hst] at h
    by_cases hexp : isTokenExpiring opts (createTokenFromStorage d) s.now
    · rw [if_pos hexp] at h
      exact CatchOut.noConfusion h
    · rw [if_neg hexp] at h
      injection h with h2
      subst h2
      rfl
  | none =>
    rw [catchStep_storage_none cfg opts s hst] at h
    injection h with h2
    subst h2
    rfl

theorem catchStep_retry_timers (cfg : Config) (opts : RefreshOptions) (s : St)
    (o2 : RefreshOptions) (s2 : St)
    (h : catchStep cfg opts s = CatchOut.retry o2 s2) : timerView s2 = timerView s := by
  cases hst : s.storage with
  | some d =>
    rw [catchStep_storage_some cfg opts s d hst] at h
    by_cases hexp : isTokenExpiring opts (createTokenFromStorage d) s.now
    · rw [if_pos hexp] at h
      injection h with h1 h2
      subst h2
      rfl
    · rw [if_neg hexp] at h
      exact CatchOut.noConfusion h
  | none =>
    rw [catchStep_storage_none cfg opts s hst] at h
    exact CatchOut.noConfusion h

theorem timerView_catchCase (cfg : Config) (f : Nat)
    (ih : ∀ (o : RefreshOptions) (x : St),
      timerView (refreshAccessToken cfg f o x) = timerView x)
    (opts : RefreshOptions) (x : St) :
    timerView (match catchStep cfg opts x with
               | CatchOut.done s2 => s2
               | CatchOut.retry o2 s2 => refreshAccessToken cfg f o2 s2) =
      timerView x := by
  cases hcs : catchStep cfg opts x with
  | done s2 => exact catchStep_done_timers cfg opts x s2 hcs
  | retry o2 s2 =>
    exact (ih o2 s2).trans (catchStep_retry_timers cfg opts x o2 s2 hcs)

theorem refresh_timerView (cfg : Config) :
    ∀ (fuel : Nat) (opts : RefreshOptions) (s : St),
      timerView (refreshAccessToken cfg fuel opts s) = timerView s := by
  intro fuel
  induction fuel with
  | zero => intro opts s; rfl
  | succ f ih =>
    intro opts s
    rw [refreshAccessToken]
    cases htok : s.token with
    | none =>
      cases hpop : popOracle s.exchangeOracle with
      | mk o rest =>
        cases o with
        | some t => rfl
        | none => exact (timerView_catchCase cfg f ih opts _).trans rfl
    | some t =>
      by_cases her : opts.expiringRefresh
      · simp only [her, if_true]
        cases hpop : popOracle s.fetchOracle with
        | mk o rest =>
          cases o with
          | some resp =>
            by_cases hok : resp.ok
            · simp only [hok, if_true]
              cases hj : resp.json with
              | some j => rfl
              | none => exact (timerView_catchCase cfg f ih opts _).trans rfl
            · simp only [hok, if_false]
              exact ih opts _
          | none => exact (timerView_catchCase cfg f ih opts _).trans rfl
      · simp only [her, if_false]
        rfl

theorem refresh_noToken_exchangeOk (cfg : Config) (fuel : Nat)
    (opts : RefreshOptions) (s : St) (t : Token) (rest : List (Option Token))
    (htok : s.token = none) (hpop : popOracle s.exchangeOracle = (some t, rest)) :
    refreshAccessToken cfg (fuel + 1) opts s = exchangeSuccess s t rest := by
  rw [refreshAccessToken, htok, hpop]

theorem refresh_noToken_exchangeFail (cfg : Config) (fuel : Nat)
    (opts : RefreshOptions) (s : St) (rest : List (Option Token))
    (htok : s.token = none) (hpop : popOracle s.exchangeOracle = (none, rest)) :
    refreshAccessToken cfg (fuel + 1) opts s =
      afterCatch cfg fuel opts { s with token := none, exchangeOracle := rest } := by
  rw [refreshAccessToken, htok, hpop]
  rfl

theorem refresh_fetch_ok (cfg : Config) (fuel : Nat) (opts : RefreshOptions)
    (s : St) (t : Token) (resp : FetchResp) (j : RespJson)
    (rest : List (Option FetchResp))
    (htok : s.token = some t) (her : opts.expiringRefresh = true)
    (hpop : popOracle s.fetchOracle = (some resp, rest))
    (hok : resp.ok = true) (hj : resp.json = some j) :
    refreshAccessToken cfg (fuel + 1) opts s =
      { s with token := some (createTokenFromRefresh t j s.now),
               storage := some (storeTokenData (createTokenFromRefresh t j s.now)),
               fetchLog := s.fetchLog ++ [mkRefreshRequest cfg t],
               fetchOracle := rest } := by
  rw [refreshAccessToken, htok, her]
  simp only [if_pos rfl, if_true, hpop, hok, hj]

theorem refresh_fetch_badjson (cfg : Config) (fuel : Nat) (opts : RefreshOptions)
    (s : St) (t : Token) (resp : FetchResp) (rest : List (Option FetchResp))
    (htok : s.token = some t) (her : opts.expiringRefresh = true)
    (hpop : popOracle s.fetchOracle = (some resp, rest))
    (hok : resp.ok = true) (hj : resp.json = none) :
    refreshAccessToken cfg (fuel + 1) opts s =
      afterCatch cfg fuel opts
        { s with token := some t,
                 fetchLog := s.fetchLog ++ [mkRefreshRequest cfg t],
                 fetchOracle := rest } := by
  rw [refreshAccessToken, htok, her]
  simp only [if_pos rfl, if_true, hpop, hok, hj]
  rfl

theorem refresh_fetch_notok (cfg : Config) (fuel : Nat) (opts : RefreshOptions)
    (s : St) (t : Token) (resp : FetchResp) (rest : List (Option FetchResp))
    (htok : s.token = some t) (her : opts.expiringRefresh = true)
    (hpop : popOracle s.fetchOracle = (some resp, rest))
    (hok : resp.ok = false) :
    refreshAccessToken cfg (fuel + 1) opts s =
      refreshAccessToken cfg fuel opts
        { s with token := none, storage := none,
                 removeLog := s.removeLog + 1,
                 fetchLog := s.fetchLog ++ [mkRefreshRequest cfg t],
                 fetchOracle := rest } := by
  rw [refreshAccessToken, htok, her]
  simp only [if_pos rfl, if_true, hpop, hok]
  rfl

theorem refresh_fetch_throw (cfg : Config) (fuel : Nat) (opts : RefreshOptions)
    (s : St) (t : Token) (rest : List (Option FetchResp))
    (htok : s.token = some t) (her : opts.expiringRefresh = true)
    (hpop : popOracle s.fetchOracle = (none, rest)) :
    refreshAccessToken cfg (fuel + 1) opts s =
      afterCatch cfg fuel opts
        { s with token := some t,
                 fetchLog := s.fetchLog ++ [mkRefreshRequest cfg t],
                 fetchOracle := rest } := by
  rw [refreshAccessToken, htok, her]
  simp only [if_pos rfl, if_true, hpop]
  rfl

theorem afterCatch_adopt (cfg : Config) (fuel : Nat) (opts : RefreshOptions)
    (x : St) (d : TokenData) (hstor : x.storage = some d)
    (hnot : ¬ ((d.expires - x.now) / 60000 ≤
      opts.refreshWindow.getD AUTH_REFRESH_WINDOW)) :
    afterCatch cfg fuel opts x = { x with token := some (createTokenFromStorage d) } := by
  unfold afterCatch
  rw [catchStep_storage_some cfg opts x d hstor, if_neg (by
    simp only [isTokenExpiring, createTokenFromStorage, decide_eq_true_eq]
    exact hnot)]

theorem afterCatch_expiring (cfg : Config) (fuel : Nat) (opts : RefreshOptions)
    (x : St) (d : TokenData) (hstor : x.storage = some d)
    (hexp : (d.expires - x.now) / 60000 ≤
      opts.refreshWindow.getD AUTH_REFRESH_WINDOW) :
    afterCatch cfg fuel opts x =
      refreshAccessToken cfg fuel { expiringRefresh := true }
        { x with token := some (createTokenFromStorage d), storage := none,
                 removeLog := x.removeLog + 1 } := by
  unfold afterCatch
  rw [catchStep_storage_some cfg opts x d hstor, if_pos (by
    simp only [isTokenExpiring, createTokenFromStorage, decide_eq_true_eq]
    exact hexp)]

theorem afterCatch_redirect (cfg : Config) (fuel : Nat) (opts : RefreshOptions)
    (x : St) (hstor : x.storage = none) :
    afterCatch cfg fuel opts x =
      { x with redirectLog := x.redirectLog ++ [cfg.authUri] } := by
  unfold afterCatch
  rw [catchStep_storage_none cfg opts x hstor]

theorem refresh_no_token_no_storage (cfg : Config) (fuel : Nat)
    (opts : RefreshOptions) (s : St) (htok : s.token = none)
    (hstor : s.storage = none) :
    (refreshAccessToken cfg fuel opts s).fetchLog = s.fetchLog ∧
    (refreshAccessToken cfg fuel opts s).removeLog = s.removeLog := by
  cases fuel with
  | zero => exact ⟨rfl, rfl⟩
  | succ f =>
    rw [refreshAccessToken, htok]
    cases hpop : popOracle s.exchangeOracle with
    | mk o rest =>
      cases o with
      | some t => exact ⟨rfl, rfl⟩
      | none =>
        show (match catchStep cfg opts
              { s with token := none, exchangeOracle := rest } with
            | CatchOut.done s2 => s2
            | CatchOut.retry o2 s2 => refreshAccessToken cfg f o2 s2).fetchLog
            = s.fetchLog ∧
          (match catchStep cfg opts
              { s with token := none, exchangeOracle := rest } with
            | CatchOut.done s2 => s2
            | CatchOut.retry o2 s2 => refreshAccessToken cfg f o2 s2).removeLog
            = s.removeLog
        rw [catchStep_storage_none cfg opts
          { s with token := none, exchangeOracle := rest } hstor]
        exact ⟨rfl, rfl⟩

/-- Claim C1: with a token held, the expiringRefresh flag set, and a
non-OK response to the refresh-token request, refreshAccessToken clears
the in-memory token, removes the stored record, logs the one refresh
request it made, and re-enters itself from the no-token state on the
same options instead of surfacing an error: the call is equal to the
recursive call on the cleaned state. -/
theorem claim_C1_expiring_refresh_failure_falls_back (cfg : Config) (fuel : Nat)
    (opts : RefreshOptions) (s : St) (t : Token) (resp : FetchResp)
    (rest : List (Option FetchResp))
    (htok : s.token = some t)
    (hopts : opts.expiringRefresh = true)
    (hfetch : s.fetchOracle = some resp :: rest)
    (hok : resp.ok = false) :
    refreshAccessToken cfg (fuel + 1) opts s =
      refreshAccessToken cfg fuel opts
        { s with token := none, storage := none,
                 removeLog := s.removeLog + 1,
                 fetchLog := s.fetchLog ++ [mkRefreshRequest cfg t],
                 fetchOracle := rest } := by
  rw [refreshAccessToken]
  rw [htok, hopts]
  simp only [if_pos rfl, hfetch, popOracle, hok]
  rfl

theorem claim_C1_witness :
    stC1.token = some tok0 ∧
    ({ expiringRefresh := true } : RefreshOptions).expiringRefresh = true ∧
    stC1.fetchOracle = some respBad :: [] ∧
    respBad.ok = false ∧
    refreshAccessToken cfg0 2 { expiringRefresh := true } stC1 =
      refreshAccessToken cfg0 1 { expiringRefresh := true }
        { stC1 with token := none, storage := none,
                    removeLog := stC1.removeLog + 1,
                    fetchLog := stC1.fetchLog ++ [mkRefreshRequest cfg0 tok0],
                    fetchOracle := [] } :=
  ⟨rfl, rfl, rfl, rfl,
    claim_C1_expiring_refresh_failure_falls_back cfg0 1 { expiringRefresh := true }
      stC1 tok0 respBad [] rfl rfl rfl rfl⟩

/-- Claim C2 counterexample: a stored record expiring 5.5 minutes from
now is more than refreshWindow equals 5 minutes in the future, yet after
the failed code exchange the controller treats it as expiring (floor of
5.5 is 5, which is not greater than 5), removes it, and issues a network
refresh request, contradicting the claim that no refresh request is
issued for every record more than refreshWindow minutes in the future. -/
theorem claim_C2_counterexample :
    stC2.token = none ∧
    (popOracle stC2.exchangeOracle).1 = none ∧
    stC2.storage = some dC2 ∧
    dC2.expires - stC2.now > AUTH_REFRESH_WINDOW * 60000 ∧
    (refreshAccessToken cfg0 4 {} stC2).fetchLog ≠ [] := by
  refine ⟨rfl, rfl, rfl, by decide, ?_⟩
  decide

/-- Claim C2, amended: the adopted-silently region is being at least
refreshWindow plus one whole minutes ahead, that is floor of the minute
distance strictly above the window.  For a stored record in that region,
a failed primary exchange adopts the record as the in-memory token and
terminates: only the token and the consumed exchange oracle change, so
no refresh request is issued, nothing is removed, and no redirect
happens. -/
theorem claim_C2_amended_silent_adoption (cfg : Config) (fuel : Nat)
    (opts : RefreshOptions) (s : St) (d : TokenData)
    (htok : s.token = none)
    (hexch : (popOracle s.exchangeOracle).1 = none)
    (hstor : s.storage = some d)
    (hfresh : (d.expires - s.now) / 60000 >
      opts.refreshWindow.getD AUTH_REFRESH_WINDOW) :
    refreshAccessToken cfg (fuel + 1) opts s =
      { s with token := some (createTokenFromStorage d),
               exchangeOracle := (popOracle s.exchangeOracle).2 } := by
  cases hpop : popOracle s.exchangeOracle with
  | mk o rest =>
    rw [hpop] at hexch
    simp only at hexch
    subst hexch
    rw [refresh_noToken_exchangeFail cfg fuel opts s rest htok hpop]
    rw [afterCatch_adopt cfg fuel opts
      { s with token := none, exchangeOracle := rest } d hstor (by
        show ¬ ((d.expires - s.now) / 60000 ≤
          opts.refreshWindow.getD AUTH_REFRESH_WINDOW)
        omega)]

theorem claim_C2_witness :
    stC2b.token = none ∧
    (popOracle stC2b.exchangeOracle).1 = none ∧
    stC2b.storage = some dC2b ∧
    (dC2b.expires - stC2b.now) / 60000 >
      (({} : RefreshOptions).refreshWindow.getD AUTH_REFRESH_WINDOW) ∧
    refreshAccessToken cfg0 3 {} stC2b =
      { stC2b with token := some (createTokenFromStorage dC2b),
                   exchangeOracle := (popOracle stC2b.exchangeOracle).2 } :=
  ⟨rfl, rfl, rfl, by decide,
    claim_C2_amended_silent_adoption cfg0 2 {} stC2b dC2b rfl rfl rfl (by decide)⟩

theorem refresh_expiring_stage (cfg : Config) (k : Nat) (x : St) (t : Token)
    (htok : x.token = some t) (hstor : x.storage = none) :
    (refreshAccessToken cfg (k + 1) { expiringRefresh := true } x).fetchLog =
      x.fetchLog ++ [mkRefreshRequest cfg t] ∧
    (refreshAccessToken cfg (k + 1) { expiringRefresh := true } x).removeLog ≥
      x.removeLog := by
  cases hpop : popOracle x.fetchOracle with
  | mk o rest =>
    cases o with
    | some resp =>
      cases hok : resp.ok with
      | true =>
        cases hj : resp.json with
        | some j =>
          rw [refresh_fetch_ok cfg k { expiringRefresh := true } x t resp j rest
            htok rfl hpop hok hj]
          exact ⟨rfl, Nat.le_refl _⟩
        | none =>
          rw [refresh_fetch_badjson cfg k { expiringRefresh := true } x t resp rest
            htok rfl hpop hok hj]
          rw [afterCatch_redirect cfg k { expiringRefresh := true }
            { x with token := some t,
                     fetchLog := x.fetchLog ++ [mkRefreshRequest cfg t],
                     fetchOracle := rest } hstor]
          exact ⟨rfl, Nat.le_refl _⟩
      | false =>
        rw [refresh_fetch_notok cfg k { expiringRefresh := true } x t resp rest
          htok rfl hpop hok]
        have hrec := refresh_no_token_no_storage cfg k { expiringRefresh := true }
          { x with token := none, storage := none,
                   removeLog := x.removeLog + 1,
                   fetchLog := x.fetchLog ++ [mkRefreshRequest cfg t],
                   fetchOracle := rest } rfl rfl
        exact ⟨hrec.1, le_trans (Nat.le_succ _) (le_of_eq hrec.2.symm)⟩
    | none =>
      rw [refresh_fetch_throw cfg k { expiringRefresh := true } x t rest
        htok rfl hpop]
      rw [afterCatch_redirect cfg k { expiringRefresh := true }
        { x with token := some t,
                 fetchLog := x.fetchLog ++ [mkRefreshRequest cfg t],
                 fetchOracle := rest } hstor]
      exact ⟨rfl, Nat.le_refl _⟩

/-- Claim C3: for a stored record within refreshWindow minutes of expiry,
a failed primary exchange removes the record from storage and issues
exactly one refresh-token request: the request log grows by exactly the
one POST to the access-token URI with grant_type refresh_token carrying
the stored refresh token, and at least one storage removal happens, for
every continuation the oracles prescribe. -/
theorem claim_C3_expiring_stored_token_single_refresh (cfg : Config) (k : Nat)
    (opts : RefreshOptions) (s : St) (d : TokenData)
    (htok : s.token = none)
    (hexch : (popOracle s.exchangeOracle).1 = none)
    (hstor : s.storage = some d)
    (hwin : d.expires - s.now ≤
      (opts.refreshWindow.getD AUTH_REFRESH_WINDOW) * 60000) :
    (refreshAccessToken cfg (k + 2) opts s).fetchLog =
      s.fetchLog ++ [mkRefreshRequest cfg (createTokenFromStorage d)] ∧
    (refreshAccessToken cfg (k + 2) opts s).removeLog ≥ s.removeLog + 1 := by
  cases hpop : popOracle s.exchangeOracle with
  | mk o rest =>
    rw [hpop] at hexch
    simp only at hexch
    subst hexch
    rw [show k + 2 = (k + 1) + 1 from rfl]
    rw [refresh_noToken_exchangeFail cfg (k + 1) opts s rest htok hpop]
    rw [afterCatch_expiring cfg (k + 1) opts
      { s with token := none, exchangeOracle := rest } d hstor (by
        show (d.expires - s.now) / 60000 ≤
          opts.refreshWindow.getD AUTH_REFRESH_WINDOW
        omega)]
    have hstage := refresh_expiring_stage cfg k
      { s with token := some (createTokenFromStorage d), storage := none,
               removeLog := s.removeLog + 1, exchangeOracle := rest }
      (createTokenFromStorage d) rfl rfl
    exact ⟨hstage.1, hstage.2⟩

theorem claim_C3_witness :
    stC3.token = none ∧
    (popOracle stC3.exchangeOracle).1 = none ∧
    stC3.storage = some dC3 ∧
    dC3.expires - stC3.now ≤
      (({} : RefreshOptions).refreshWindow.getD AUTH_REFRESH_WINDOW) * 60000 ∧
    ((refreshAccessToken cfg0 3 {} stC3).fetchLog =
      stC3.fetchLog ++ [mkRefreshRequest cfg0 (createTokenFromStorage dC3)] ∧
    (refreshAccessToken cfg0 3 {} stC3).removeLog ≥ stC3.removeLog + 1) :=
  ⟨rfl, rfl, rfl, by decide,
    claim_C3_expiring_stored_token_single_refresh cfg0 1 {} stC3 dC3
      rfl rfl rfl (by decide)⟩

theorem getStateForClientOAuth_eq (search : List (String × String))
    (pathname : String) (ctor : List (String × String)) :
    getStateForClientOAuth search pathname ctor =
      (if objAssign (decodeAppState search pathname) ctor = [] then some none
       else (btoa (jsonStringifyObj
         (objAssign (decodeAppState search pathname) ctor))).map some) := rfl

theorem jsonStringifyObj_data_ne_nil (l : List (String × String)) :
    (jsonStringifyObj l).data ≠ [] := by
  simp [jsonStringifyObj]

theorem btoa_some_ne_empty (s e : String) (hs : s.data ≠ [])
    (h : btoa s = some e) : e ≠ "" := by
  rw [btoa] at h
  by_cases hall : s.data.all (fun c => c.toNat < 256)
  · rw [if_pos hall] at h
    injection h with h2
    cases hd : s.data with
    | nil => exact absurd hd hs
    | cons b bs =>
      intro he
      subst he
      have hnil : b64EncodeBytes (s.data.map Char.toNat) = [] :=
        congrArg String.data h2
      rw [hd, List.map_cons] at hnil
      exact b64EncodeBytes_ne_nil _ _ hnil
  · rw [if_neg hall] at h
    exact absurd h (by simp)

/-- Claim C4 counterexample: with the non-root path /p and the single
caller-supplied field from set to a euro sign, encoding the state does
not round-trip: btoa throws the InvalidCharacterError DOMException on
the character above 255, so _getStateForClientOAuth produces no encoded
state at all. -/
theorem claim_C4_counterexample :
    getStateForClientOAuth [] "/p" [("from", "€")] = none := by
  rfl

/-- Claim C4, amended to states whose keys and values stay within
Latin-1 (btoa's domain): whenever _getStateForClientOAuth encodes the
state assembled from the whitelisted query parameters, the path, and
the caller-supplied fields, _decodeAppState on a location carrying that
encoding as the state parameter returns an equal state object. -/
theorem claim_C4_amended_state_roundtrip (search : List (String × String))
    (pathname : String) (ctor : List (String × String)) (enc : String)
    (hlat : latin1Obj (objAssign (decodeAppState search pathname) ctor))
    (henc : getStateForClientOAuth search pathname ctor = some (some enc)) :
    decodeAppState [("state", enc)] "/" =
      objAssign (decodeAppState search pathname) ctor := by
  have hnd : (keysOf (objAssign (decodeAppState search pathname) ctor)).Nodup :=
    nodup_objAssign ctor _ (nodup_decodeAppState search pathname)
  rw [getStateForClientOAuth_eq] at henc
  by_cases hnil : objAssign (decodeAppState search pathname) ctor = []
  · rw [if_pos hnil] at henc
    exact absurd henc (by simp)
  · rw [if_neg hnil] at henc
    have hb : btoa (jsonStringifyObj
        (objAssign (decodeAppState search pathname) ctor)) = some enc := by
      cases hbb : btoa (jsonStringifyObj
          (objAssign (decodeAppState search pathname) ctor)) with
      | none => rw [hbb] at henc; exact absurd henc (by simp)
      | some e2 =>
        rw [hbb] at henc
        simp only [Option.map_some', Option.some.injEq] at henc
        exact congrArg some henc
    have hjl := jsonStringifyObj_latin1 _ hlat
    have hat : atob enc = some (jsonStringifyObj
        (objAssign (decodeAppState search pathname) ctor)) := by
      have h4 := atob_btoa (jsonStringifyObj
        (objAssign (decodeAppState search pathname) ctor)) hjl
      rwa [hb, Option.getD_some] at h4
    have hne : enc ≠ "" :=
      btoa_some_ne_empty _ enc (jsonStringifyObj_data_ne_nil _) hb
    exact decodeAppState_pure_state enc hne _
      (by rw [hat]; exact jsonParseObj_stringifyObj _) hnd

theorem claim_C4_witness :
    latin1Obj (objAssign (decodeAppState searchC4 "/home") ctorC4) ∧
    getStateForClientOAuth searchC4 "/home" ctorC4 = some (some encC4) ∧
    decodeAppState [("state", encC4)] "/" =
      objAssign (decodeAppState searchC4 "/home") ctorC4 :=
  ⟨by decide, rfl, claim_C4_amended_state_roundtrip searchC4 "/home" ctorC4 encC4
    (by decide) rfl⟩

theorem catchStep_done_cookie (cfg : Config) (opts : RefreshOptions) (s s2 : St)
    (h : catchStep cfg opts s = CatchOut.done s2) : cookieView s2 = cookieView s := by
  cases hst : s.storage with
  | some d =>
    rw [catchStep_storage_some cfg opts s d hst] at h
    by_cases hexp : isTokenExpiring opts (createTokenFromStorage d) s.now
    · rw [if_pos hexp] at h
      exact CatchOut.noConfusion h
    · rw [if_neg hexp] at h
      injection h with h2
      subst h2
      rfl
  | none =>
    rw [catchStep_storage_none cfg opts s hst] at h
    injection h with h2
    subst h2
    rfl

theorem catchStep_retry_cookie (cfg : Config) (opts : RefreshOptions) (s : St)
    (o2 : RefreshOptions) (s2 : St)
    (h : catchStep cfg opts s = CatchOut.retry o2 s2) : cookieView s2 = cookieView s := by
  cases hst : s.storage with
  | some d =>
    rw [catchStep_storage_some cfg opts s d hst] at h
    by_cases hexp : isTokenExpiring opts (createTokenFromStorage d) s.now
    · rw [if_pos hexp] at h
      injection h with h1 h2
      subst h2
      rfl
    · rw [if_neg hexp] at h
      exact CatchOut.noConfusion h
  | none =>
    rw [catchStep_storage_none cfg opts s hst] at h
    exact CatchOut.noConfusion h

theorem cookieView_catchCase (cfg : Config) (f : Nat)
    (ih : ∀ (o : RefreshOptions) (x : St),
      cookieView (refreshAccessToken cfg f o x) = cookieView x)
    (opts : RefreshOptions) (x : St) :
    cookieView (match catchStep cfg opts x with
               | CatchOut.done s2 => s2
               | CatchOut.retry o2 s2 => refreshAccessToken cfg f o2 s2) =
      cookieView x := by
  cases hcs : catchStep cfg opts x with
  | done s2 => exact catchStep_done_cookie cfg opts x s2 hcs
  | retry o2 s2 =>
    exact (ih o2 s2).trans (catchStep_retry_cookie cfg opts x o2 s2 hcs)

theorem refresh_cookieView (cfg : Config) :
    ∀ (fuel : Nat) (opts : RefreshOptions) (s : St),
      cookieView (refreshAccessToken cfg fuel opts s) = cookieView s := by
  intro fuel
  induction fuel with
  | zero => intro opts s; rfl
  | succ f ih =>
    intro opts s
    rw [refreshAccessToken]
    cases htok : s.token with
    | none =>
      cases hpop : popOracle s.exchangeOracle with
      | mk o rest =>
        cases o with
        | some t => rfl
        | none => exact (cookieView_catchCase cfg f ih opts _).trans rfl
    | some t =>
      by_cases her : opts.expiringRefresh
      · simp only [her, if_true]
        cases hpop : popOracle s.fetchOracle with
        | mk o rest =>
          cases o with
          | some resp =>
            by_cases hok : resp.ok
            · simp only [hok, if_true]
              cases hj : resp.json with
              | some j => rfl
              | none => exact (cookieView_catchCase cfg f ih opts _).trans rfl
            · simp only [hok, if_false]
              exact ih opts _
          | none => exact (cookieView_catchCase cfg f ih opts _).trans rfl
      · simp only [her, if_false]
        rfl

/-- Claim C5 (modelled from the spec: the newest LOAuth, whose
refreshAccessToken consults the hand-off cookie, is not in the snapshot;
only its test file is): with no token held and a hand-off cookie
present, the call adopts the cookie contents as the in-memory token and
the persisted record, clears the cookie, and issues exactly one deletion
write, namely the auth key with an empty value and a negative Max-Age
for the cookie domain; a second call adds no further write, so the
deletion happens exactly once. -/
theorem claim_C5_cookie_adopted_and_deleted_once (cfg : Config)
    (fuel fuel2 : Nat) (opts opts2 : RefreshOptions) (s : St) (c : CookieData)
    (htok : s.token = none) (hck : s.cookie = some c) :
    refreshAccessTokenWithCookieHandoff cfg fuel opts s =
      { s with token := some (tokenFromCookie c),
               storage := some (storedFromCookie c),
               cookie := none,
               cookieWrites := s.cookieWrites ++ [deleteCookieString c.cookieDomain] } ∧
    (refreshAccessTokenWithCookieHandoff cfg fuel2 opts2
        (refreshAccessTokenWithCookieHandoff cfg fuel opts s)).cookieWrites =
      s.cookieWrites ++ [deleteCookieString c.cookieDomain] := by
  have h1 : refreshAccessTokenWithCookieHandoff cfg fuel opts s =
      { s with token := some (tokenFromCookie c),
               storage := some (storedFromCookie c),
               cookie := none,
               cookieWrites := s.cookieWrites ++ [deleteCookieString c.cookieDomain] } := by
    rw [refreshAccessTokenWithCookieHandoff, htok, hck]
  refine ⟨h1, ?_⟩
  rw [h1]
  show (refreshAccessToken cfg fuel2 opts2
      { s with token := some (tokenFromCookie c),
               storage := some (storedFromCookie c),
               cookie := none,
               cookieWrites := s.cookieWrites ++ [deleteCookieString c.cookieDomain] }).cookieWrites =
    s.cookieWrites ++ [deleteCookieString c.cookieDomain]
  exact congrArg Prod.snd (refresh_cookieView cfg fuel2 opts2 _)

theorem claim_C5_witness :
    stC5.token = none ∧ stC5.cookie = some cookie0 ∧
    (refreshAccessTokenWithCookieHandoff cfg0 1 {} stC5 =
      { stC5 with token := some (tokenFromCookie cookie0),
                  storage := some (storedFromCookie cookie0),
                  cookie := none,
                  cookieWrites := stC5.cookieWrites ++
                    [deleteCookieString cookie0.cookieDomain] } ∧
    (refreshAccessTokenWithCookieHandoff cfg0 1 {}
        (refreshAccessTokenWithCookieHandoff cfg0 1 {} stC5)).cookieWrites =
      stC5.cookieWrites ++ [deleteCookieString cookie0.cookieDomain]) :=
  ⟨rfl, rfl,
    claim_C5_cookie_adopted_and_deleted_once cfg0 1 1 {} {} stC5 cookie0 rfl rfl⟩

/-- Claim C6 counterexample: a provider rejection of the verify request
arrives as the axios transport envelope.  confirmPasswordlessAuth has no
catch, so the caller receives that envelope itself, not the unwrapped
provider body that formatAxiosError (used by the storage helpers, and by
an earlier confirmPasswordlessAuth) would extract: the received error
differs from the unwrapped body. -/
theorem claim_C6_counterexample :
    (confirmPasswordlessAuth apiCfg0 (Except.error envC6) "123"
      (some "s") (some "u") { session := none, store := [] }).1 =
        Except.error envC6 ∧
    formatAxiosError envC6 = JsError.raw "invalid_grant" ∧
    envC6 ≠ formatAxiosError envC6 := by
  refine ⟨rfl, rfl, by decide⟩

/-- Claim C6, amended: for every provider rejection of the verify
request, confirmPasswordlessAuth propagates the rejection value to the
caller completely unchanged, still wrapped in the transport envelope; no
different error value is synthesized and nothing is unwrapped. -/
theorem claim_C6_amended_error_propagated_unchanged (cfg : ApiConfig)
    (e : JsError) (code : String) (sessionArg usernameArg : Option String)
    (st : ApiSt) :
    (confirmPasswordlessAuth cfg (Except.error e) code
      sessionArg usernameArg st).1 = Except.error e := rfl

/-- Claim C7: the passwordless scenario.  initiatePasswordlessAuth for
username a at b.com with appsBaseUri x and loginAppBasePath y, with the
provider returning session s1, sends the documented request and leaves
session s1 and the username in storage under the default keys; the
subsequent confirmPasswordlessAuth with only the code 123 backfills both
from storage, posts clientId, code, session and username, and on
provider success persists the accessToken, idToken and refreshToken
fields and returns the tokens. -/
theorem claim_C7_passwordless_scenario :
    (let r1 := initiatePasswordlessAuth apiCfg0
        (Except.ok { session := some "s1" }) "x" "y" "a@b.com"
        { session := none, store := [] }
     let st1 := r1.2.1
     r1.2.2 = { appsBaseUri := "x", clientId := "client-id",
                loginAppBasePath := "y", username := "a@b.com" } ∧
     getProp st1.store "lo-app-tools-api-auth.session" = some "s1" ∧
     getProp st1.store "lo-app-tools-api-auth.username" = some "a@b.com" ∧
     (let r2 := confirmPasswordlessAuth apiCfg0 (Except.ok tokens0) "123"
        none none st1
      r2.2.2 = { clientId := "client-id", code := "123",
                 session := some "s1", username := some "a@b.com" } ∧
      getProp r2.2.1.store "lo-app-tools-api-auth.accessToken" =
        some "access-token" ∧
      getProp r2.2.1.store "lo-app-tools-api-auth.idToken" = some "id-token" ∧
      getProp r2.2.1.store "lo-app-tools-api-auth.refreshToken" =
        some "refresh-token" ∧
      r2.1 = Except.ok tokens0)) := by
  exact ⟨rfl, rfl, rfl, rfl, rfl, rfl, rfl, rfl⟩

/-! ### Claims C8, C9, C10: logout and the refresh schedule -/

/-- Claim C8 (modelled from the spec for the merge case: the newest
LOAuth is not in the snapshot, and the snapshot logout always inserts a
question mark; the merge behaviour is fixed by the spec and by the test
in unnamed/part_004): the logout navigation target carries client_id
and logout_uri as its query parameters, and when the configured logout
URI already has a query string they are merged into it with an
ampersand rather than starting a second query string. -/
theorem claim_C8_logout_merges_query (cfg : Config)
    (hq : strContains cfg.logoutUri '?' = true) :
    logoutNavigationTarget cfg = cfg.logoutUri ++ "&" ++ logoutQs cfg ∧
    logoutQs cfg = queryStringStringify
      [("client_id", cfg.clientId), ("logout_uri", cfg.logoutRedirectUri)] := by
  unfold logoutNavigationTarget
  rw [if_pos hq]
  exact ⟨rfl, rfl⟩

theorem claim_C8_witness :
    strContains cfgC8.logoutUri '?' = true ∧
    (logoutNavigationTarget cfgC8 = cfgC8.logoutUri ++ "&" ++ logoutQs cfgC8 ∧
     logoutQs cfgC8 = queryStringStringify
       [("client_id", cfgC8.clientId), ("logout_uri", cfgC8.logoutRedirectUri)]) ∧
    logoutNavigationTarget cfgC8 =
      "https://auth.us.skillspring.com/logout?logout=pending&client_id=7cbji8hkta84ons79j34qcfdci&logout_uri=http%3A%2F%2Flocalhost%3A3000%2Flogout" :=
  ⟨rfl, claim_C8_logout_merges_query cfgC8 rfl, by decide⟩

theorem start_eq_install (cfg : Config) (f : Nat) (o : RefreshOptions) (s : St) :
    startAutomaticTokenRefresh cfg f o s =
      installInterval (if s.token = none then refreshAccessToken cfg f o s else s) := rfl

theorem installInterval_none (x : St) (hx : x.refreshInterval = none) :
    installInterval x =
      { x with refreshInterval := some x.nextHandle,
               timers := x.timers ++ [x.nextHandle],
               activeTimers := x.activeTimers ++ [x.nextHandle],
               nextHandle := x.nextHandle + 1 } := by
  unfold installInterval
  rw [hx]

theorem installInterval_some (x : St) (h0 : Nat) (hx : x.refreshInterval = some h0) :
    installInterval x = x := by
  unfold installInterval
  rw [hx]

theorem start_noop_when_interval_set (cfg : Config) (f : Nat) (o : RefreshOptions)
    (x : St) (h0 : Nat) (hx : x.refreshInterval = some h0) :
    timerView (startAutomaticTokenRefresh cfg f o x) = timerView x := by
  have hv : timerView (if x.token = none then refreshAccessToken cfg f o x else x)
      = timerView x := by
    by_cases htok : x.token = none
    · rw [if_pos htok]; exact refresh_timerView cfg f o x
    · rw [if_neg htok]
  rw [start_eq_install, installInterval_some _ h0 ((congrArg Prod.fst hv).trans hx)]
  exact hv

/-- Claim C9: startAutomaticTokenRefresh installs at most one recurring
timer.  On an instance with no stored handle the first call stores the
fresh handle and appends exactly one timer; a second call right after,
the first timer still active, changes no component of the timer state:
no second timer is created. -/
theorem claim_C9_start_installs_at_most_one_timer (cfg : Config) (f1 f2 : Nat)
    (o1 o2 : RefreshOptions) (s : St) (hri : s.refreshInterval = none) :
    (startAutomaticTokenRefresh cfg f1 o1 s).refreshInterval = some s.nextHandle ∧
    (startAutomaticTokenRefresh cfg f1 o1 s).timers = s.timers ++ [s.nextHandle] ∧
    timerView (startAutomaticTokenRefresh cfg f2 o2
        (startAutomaticTokenRefresh cfg f1 o1 s)) =
      timerView (startAutomaticTokenRefresh cfg f1 o1 s) := by
  have hv1 : timerView (if s.token = none then refreshAccessToken cfg f1 o1 s else s)
      = timerView s := by
    by_cases htok : s.token = none
    · rw [if_pos htok]; exact refresh_timerView cfg f1 o1 s
    · rw [if_neg htok]
  have hra : (if s.token = none then refreshAccessToken cfg f1 o1 s else s).refreshInterval
      = none := (congrArg Prod.fst hv1).trans hri
  have htm : (if s.token = none then refreshAccessToken cfg f1 o1 s else s).timers
      = s.timers := congrArg (fun v => v.2.1) hv1
  have hnx : (if s.token = none then refreshAccessToken cfg f1 o1 s else s).nextHandle
      = s.nextHandle := congrArg (fun v => v.2.2.2) hv1
  have h1 : (startAutomaticTokenRefresh cfg f1 o1 s).refreshInterval = some s.nextHandle := by
    rw [start_eq_install, installInterval_none _ hra, hnx]
  have h2 : (startAutomaticTokenRefresh cfg f1 o1 s).timers = s.timers ++ [s.nextHandle] := by
    rw [start_eq_install, installInterval_none _ hra, htm, hnx]
  exact ⟨h1, h2, start_noop_when_interval_set cfg f2 o2 _ s.nextHandle h1⟩

theorem claim_C9_witness :
    st0.refreshInterval = none ∧
    ((startAutomaticTokenRefresh cfg0 1 {} st0).refreshInterval = some st0.nextHandle ∧
     (startAutomaticTokenRefresh cfg0 1 {} st0).timers = st0.timers ++ [st0.nextHandle] ∧
     timerView (startAutomaticTokenRefresh cfg0 1 {}
         (startAutomaticTokenRefresh cfg0 1 {} st0)) =
       timerView (startAutomaticTokenRefresh cfg0 1 {} st0)) :=
  ⟨rfl, claim_C9_start_installs_at_most_one_timer cfg0 1 1 {} {} st0 rfl⟩

theorem stop_some (x : St) (h : Nat) (hx : x.refreshInterval = some h) :
    stopAutomaticTokenRefresh x =
      { x with activeTimers := x.activeTimers.filter (fun a => a ≠ h) } := by
  unfold stopAutomaticTokenRefresh
  rw [hx]

theorem applyOps_interval_invariant (cfg : Config) :
    ∀ (ops : List Op) (x : St) (h : Nat),
      x.refreshInterval = some h → h ∉ x.activeTimers →
      (applyOps cfg ops x).refreshInterval = some h ∧
      (applyOps cfg ops x).timers = x.timers ∧
      h ∉ (applyOps cfg ops x).activeTimers := by
  intro ops
  induction ops with
  | nil => intro x h hri hact; exact ⟨hri, rfl, hact⟩
  | cons op rest ih =>
    intro x h hri hact
    have hstep : (applyOp cfg x op).refreshInterval = some h ∧
        (applyOp cfg x op).timers = x.timers ∧
        h ∉ (applyOp cfg x op).activeTimers := by
      cases op with
      | refresh f o =>
        have hv := refresh_timerView cfg f o x
        have e1 : (applyOp cfg x (Op.refresh f o)).refreshInterval = x.refreshInterval :=
          congrArg Prod.fst hv
        have e2 : (applyOp cfg x (Op.refresh f o)).timers = x.timers :=
          congrArg (fun v => v.2.1) hv
        have e3 : (applyOp cfg x (Op.refresh f o)).activeTimers = x.activeTimers :=
          congrArg (fun v => v.2.2.1) hv
        exact ⟨e1.trans hri, e2, fun hm => hact (e3 ▸ hm)⟩
      | start f o =>
        have hv := start_noop_when_interval_set cfg f o x h hri
        have e1 : (applyOp cfg x (Op.start f o)).refreshInterval = x.refreshInterval :=
          congrArg Prod.fst hv
        have e2 : (applyOp cfg x (Op.start f o)).timers = x.timers :=
          congrArg (fun v => v.2.1) hv
        have e3 : (applyOp cfg x (Op.start f o)).activeTimers = x.activeTimers :=
          congrArg (fun v => v.2.2.1) hv
        exact ⟨e1.trans hri, e2, fun hm => hact (e3 ▸ hm)⟩
      | stop =>
        have hs := stop_some x h hri
        refine ⟨?_, ?_, ?_⟩
        · show (stopAutomaticTokenRefresh x).refreshInterval = some h
          rw [hs]
          exact hri
        · show (stopAutomaticTokenRefresh x).timers = x.timers
          rw [hs]
        · show h ∉ (stopAutomaticTokenRefresh x).activeTimers
          rw [hs]
          simp
      | logoutOp =>
        have hs := stop_some x h hri
        have hlv : timerView (logout cfg x) = timerView (stopAutomaticTokenRefresh x) := rfl
        have e1 : (logout cfg x).refreshInterval =
            (stopAutomaticTokenRefresh x).refreshInterval := congrArg Prod.fst hlv
        have e2 : (logout cfg x).timers = (stopAutomaticTokenRefresh x).timers :=
          congrArg (fun v => v.2.1) hlv
        have e3 : (logout cfg x).activeTimers =
            (stopAutomaticTokenRefresh x).activeTimers := congrArg (fun v => v.2.2.1) hlv
        refine ⟨?_, ?_, ?_⟩
        · show (logout cfg x).refreshInterval = some h
          rw [e1, hs]
          exact hri
        · show (logout cfg x).timers = x.timers
          rw [e2, hs]
        · show h ∉ (logout cfg x).activeTimers
          rw [e3, hs]
          simp
    obtain ⟨h1, h2, h3⟩ := hstep
    have hrec := ih (applyOp cfg x op) h h1 h3
    exact ⟨hrec.1, hrec.2.1.trans h2, hrec.2.2⟩

/-- Claim C10: the stored interval handle is never cleared.
stopAutomaticTokenRefresh cancels the running timer but keeps the
handle, so from any state holding a handle, after a stop the handle is
still stored and its timer inactive, and along every sequence of
refresh, start, stop and logout operations the handle stays stored, the
timer list never grows (no start ever installs a new timer), and the
cancelled timer never becomes active again: automatic refresh cannot be
restarted. -/
theorem claim_C10_interval_handle_never_cleared (cfg : Config) (s : St) (h : Nat)
    (hri : s.refreshInterval = some h) :
    (stopAutomaticTokenRefresh s).refreshInterval = some h ∧
    h ∉ (stopAutomaticTokenRefresh s).activeTimers ∧
    ∀ ops : List Op,
      (applyOps cfg ops (stopAutomaticTokenRefresh s)).refreshInterval = some h ∧
      (applyOps cfg ops (stopAutomaticTokenRefresh s)).timers =
        (stopAutomaticTokenRefresh s).timers ∧
      h ∉ (applyOps cfg ops (stopAutomaticTokenRefresh s)).activeTimers := by
  have hs := stop_some s h hri
  have h1 : (stopAutomaticTokenRefresh s).refreshInterval = some h := by
    rw [hs]
    exact hri
  have h2 : h ∉ (stopAutomaticTokenRefresh s).activeTimers := by
    rw [hs]
    simp
  exact ⟨h1, h2, fun ops => applyOps_interval_invariant cfg ops _ h h1 h2⟩

theorem claim_C10_witness :
    stC10.refreshInterval = some 1 ∧
    ((stopAutomaticTokenRefresh stC10).refreshInterval = some 1 ∧
     1 ∉ (stopAutomaticTokenRefresh stC10).activeTimers ∧
     ∀ ops : List Op,
       (applyOps cfg0 ops (stopAutomaticTokenRefresh stC10)).refreshInterval = some 1 ∧
       (applyOps cfg0 ops (stopAutomaticTokenRefresh stC10)).timers =
         (stopAutomaticTokenRefresh stC10).timers ∧
       1 ∉ (applyOps cfg0 ops (stopAutomaticTokenRefresh stC10)).activeTimers) :=
  ⟨rfl, claim_C10_interval_handle_never_cleared cfg0 stC10 1 rfl⟩

end AppTools
